import Mathlib

/-!
Verification development for the `versioned` repository (greenpau/versioned).

The Go sources are shallowly embedded: Go strings become `List Char`, Go's
`strings`/`strconv` helpers become executable Lean functions, the per-dialect
sync scanners (`syncGolangFile`, `syncPythonFile`, `syncJavascriptFile` in
`cmd/versioned/main.go`) become folds over the list of scanned lines, and the
semantic-version operations (`NewVersion`, `String`, `IncrementMajor`,
`IncrementMinor`, `IncrementPatch`, `readVersionFromFile`,
`NewVersionFromFile` in `versioned.go`) become pure functions returning
`Except`.  File writes are represented by the `SyncResult` type: a run either
fails, runs to completion without writing, or writes an explicit byte string
with an explicit permission mode.
-/

/-- Go strings are byte strings; we model them as lists of characters
(all data in this development is ASCII). -/
abbrev Str := List Char

/-- The double-quote character. -/
def quoteCh : Char := Char.ofNat 34

/-- The single-quote character. -/
def squoteCh : Char := Char.ofNat 39

/-- Whitespace predicate used by Go's `strings.TrimSpace`
(ASCII part: space, tab, newline, vertical tab, form feed, carriage return). -/
def goSpace (c : Char) : Bool :=
  c = ' ' || c = '\t' || c = '\n' || c = '\r' || c = Char.ofNat 11 || c = Char.ofNat 12

/-- Models `strings.TrimSpace` (on ASCII input). -/
def strTrimSpace (s : Str) : Str :=
  ((s.dropWhile goSpace).reverse.dropWhile goSpace).reverse

/-- Models `strings.HasPrefix s pat`. -/
def strHasPre : Str → Str → Bool
  | _, [] => true
  | [], _ :: _ => false
  | c :: cs, p :: ps => c = p && strHasPre cs ps

/-- Models `strings.Contains s pat`. -/
def strContains : Str → Str → Bool
  | [], pat => strHasPre [] pat
  | c :: cs, pat => strHasPre (c :: cs) pat || strContains cs pat

/-- Models `strings.SplitN s sep 2` for a one-character separator: returns the
part before the first separator, and (if the separator occurs) the part after it. -/
def strSplitN2 (sep : Char) : Str → Str × Option Str
  | [] => ([], none)
  | c :: cs =>
    if c = sep then ([], some cs)
    else
      let r := strSplitN2 sep cs
      (c :: r.1, r.2)

/-- Models `strings.Split s sep` for a one-character separator. -/
def strSplit (sep : Char) : Str → List Str
  | [] => [[]]
  | c :: cs =>
    match strSplit sep cs with
    | [] => [[c]]
    | h :: t => if c = sep then [] :: h :: t else (c :: h) :: t

/-- Fuelled worker for `strReplaceAll` (the fuel is only a termination device;
`strReplaceAll` always supplies enough of it). -/
def replaceAllAux (old new : Str) : Nat → Str → Str
  | 0, l => l
  | _ + 1, [] => []
  | fuel + 1, c :: cs =>
    if strHasPre (c :: cs) old then new ++ replaceAllAux old new fuel (cs.drop (old.length - 1))
    else c :: replaceAllAux old new fuel cs

/-- Models `strings.Replace s old new (-1)` / `strings.ReplaceAll`:
every occurrence of `old` is replaced by `new`, scanning left to right;
an empty `old` inserts `new` around every character, as in Go. -/
def strReplaceAll (s old new : Str) : Str :=
  if old = [] then new ++ (s.map (fun c => [c] ++ new)).flatten
  else replaceAllAux old new s.length s

/-- Value of a decimal digit character. -/
def charVal (c : Char) : Nat := c.toNat - 48

/-- Decimal value of a digit string (fold used by `strconv.ParseUint`). -/
def digitsVal (l : Str) : Nat := l.foldl (fun a c => a * 10 + charVal c) 0

/-- Models `strconv.ParseUint s 10 64`: succeeds exactly on nonempty all-digit
strings whose value fits in 64 bits (Go returns a non-nil error both on a
syntax error and on overflow, and `NewVersion` only tests the error for nil). -/
def goParseUint (l : Str) : Option Nat :=
  if l = [] then none
  else if l.all Char.isDigit then
    if digitsVal l < 2 ^ 64 then some (digitsVal l) else none
  else none

/-- Decimal digit character of `d` (for `d < 10`). -/
def digitChar (d : Nat) : Char := Char.ofNat (48 + d)

/-- Fuelled decimal printer worker. -/
def natReprAux : Nat → Nat → Str
  | 0, _ => []
  | fuel + 1, n =>
    if n < 10 then [digitChar n] else natReprAux fuel (n / 10) ++ [digitChar (n % 10)]

/-- Decimal representation of a natural number, as printed by Go's `%d`. -/
def natRepr (n : Nat) : Str := natReprAux (n + 1) n

/-- Models `versioned.Version` (`versioned.go`): major/minor/patch are Go
`uint64` values, modelled as naturals below `2^64` with wraparound arithmetic
where the code increments them. -/
structure Version where
  Major : Nat
  Minor : Nat
  Patch : Nat
  FileName : Str
deriving DecidableEq, Repr

/-- The error cases of `versioned.NewVersion` (`versioned.go` lines 143-169),
one constructor per distinct error message. -/
inductive VersionError where
  /-- "empty string" -/
  | emptyString
  /-- "version must be in major.minor.patch format" -/
  | malformed
  /-- "failed to parse major version" -/
  | invalidMajor
  /-- "failed to parse minor version" -/
  | invalidMinor
  /-- "failed to parse patch version" -/
  | invalidPatch
deriving DecidableEq, Repr

/-- Models `versioned.NewVersion`: reject the empty string, split on `.` into
exactly three parts, parse each part as a `uint64`, and associate the default
source file name `VERSION`. -/
def NewVersion (s : Str) : Except VersionError Version :=
  if s = [] then .error .emptyString
  else
    match strSplit '.' s with
    | [p0, p1, p2] =>
      match goParseUint p0 with
      | none => .error .invalidMajor
      | some a =>
        match goParseUint p1 with
        | none => .error .invalidMinor
        | some b =>
          match goParseUint p2 with
          | none => .error .invalidPatch
          | some c => .ok ⟨a, b, c, "VERSION".toList⟩
    | _ => .error .malformed

/-- Models `Version.String` (`fmt.Sprintf "%d.%d.%d"`). -/
def Version.toStr (v : Version) : Str :=
  natRepr v.Major ++ ('.' :: (natRepr v.Minor ++ ('.' :: natRepr v.Patch)))

/-- Models `Version.IncrementMajor` (`versioned.go` lines 181-186): the `uint64`
argument is ignored; major is incremented (with `uint64` wraparound) and
minor/patch are reset to zero. -/
def IncrementMajor (v : Version) (_i : Nat) : Version :=
  { v with Major := (v.Major + 1) % 2 ^ 64, Minor := 0, Patch := 0 }

/-- Models `Version.IncrementMinor` (`versioned.go` lines 188-192). -/
def IncrementMinor (v : Version) (_i : Nat) : Version :=
  { v with Minor := (v.Minor + 1) % 2 ^ 64, Patch := 0 }

/-- Models `Version.IncrementPatch` (`versioned.go` lines 194-197). -/
def IncrementPatch (v : Version) (_i : Nat) : Version :=
  { v with Patch := (v.Patch + 1) % 2 ^ 64 }

/-- One trailing carriage return is stripped from a scanned line
(`bufio.ScanLines`'s `dropCR`). -/
def dropCR (l : Str) : Str :=
  if l.getLast? = some '\r' then l.dropLast else l

/-- Models tokenisation by `bufio.Scanner` with the default `ScanLines` split:
lines are split on `'\n'`, one trailing `'\r'` is stripped from each line, a
final line without a newline is still produced, and an empty input produces no
lines. -/
def scanLines (content : Str) : List Str :=
  if content = [] then []
  else if content.getLast? = some '\n' then ((strSplit '\n' content).dropLast).map dropCR
  else (strSplit '\n' content).map dropCR

/-- Models `readVersionFromFile` (`versioned.go` lines 199-219) for a readable
file with the given content: the first scanned line, trimmed of surrounding
whitespace; the empty string when the file has no lines. -/
def readVersionFromFile (content : Str) : Str :=
  match scanLines content with
  | [] => []
  | t :: _ => strTrimSpace t

/-- Models `NewVersionFromFile` (`versioned.go` lines 223-237) for a readable
file: parse the first trimmed line and bind the version to the given path
(the file-read error branch is not taken for a readable file). -/
def NewVersionFromFile (path content : Str) : Except VersionError Version :=
  match NewVersion (readVersionFromFile content) with
  | .error e => .error e
  | .ok v => .ok { v with FileName := path }

/-! ## The sync engine (`cmd/versioned/main.go`) -/

/-- A scanned line with its newline re-appended (`line := line + "\n"`). -/
def lineOf (tok : Str) : Str := tok ++ ['\n']

/-- Import-path marker of the owning package (`pkgName` in `syncGolangFile`). -/
def pkgNameStr : Str := "github.com/greenpau/versioned".toList

/-- The init-function opening marker searched for by `syncGolangFile`. -/
def funcInitStr : Str := "func init() \x7b".toList

/-- The constructor-call marker searched for by `syncGolangFile`. -/
def ctorStr : Str := "versioned.NewPackageManager".toList

/-- The closing-brace prefix that ends the scanned init block. -/
def braceStr : Str := "\x7d".toList

/-- The `Version` field name captured by the `Set` regular expression. -/
def verFieldStr : Str := "Version".toList

/-- The `GitBranch` field name captured by the `Set` regular expression. -/
def branchFieldStr : Str := "GitBranch".toList

/-- The `GitCommit` field name captured by the `Set` regular expression. -/
def commitFieldStr : Str := "GitCommit".toList

/-- The module-level dunder searched for by `syncPythonFile`. -/
def dunderStr : Str := "__version__".toList

/-- The field marker searched for by `syncJavascriptFile` (note the trailing
space). -/
def jsMarkerStr : Str := "Version: ".toList

/-- The structural errors returned by the three sync scanners. -/
inductive SyncErr where
  /-- Go: "package github.com/greenpau/versioned not found" -/
  | pkgNotFound
  /-- Go: "package github.com/greenpau/versioned is not initialized. ..." -/
  | pkgNotInit
  /-- Go: "package version not found. ..." -/
  | verNotFound
  /-- Python: "__version__ module level dunder not found. ..." -/
  | dunderNotFound
  /-- JS/TS: "version not found. ..." -/
  | jsVerNotFound
deriving DecidableEq, Repr

/-- Outcome of one sync run over a file: a structural error (the file is left
untouched), a Go runtime panic (out-of-range index; the file is left
untouched), a completed pass with no write, or a write of `content` with
permission bits `mode`. -/
inductive SyncResult where
  | err (e : SyncErr)
  | aborted
  | noWrite
  | write (content : Str) (mode : Nat)
deriving DecidableEq, Repr

/-! ### The Go `Set` call regular expression

`syncGolangFile` matches each candidate line against the Go regexp
`\s*(\S.*)\.Set(\S+)\(\S+, "(.*)"` using `FindStringSubmatch`, which returns
the leftmost match, resolving quantifiers greedily with backtracking
(leftmost-first semantics).  The engine below implements exactly that search
for this one pattern: `countdown`/`firstSome` enumerate candidate lengths for
each greedy quantifier in priority order (longest first), and the unanchored
search tries start positions left to right. -/

/-- Go regexp's `\s` character class: `[\t\n\f\r ]`. -/
def reSpace (c : Char) : Bool :=
  c = '\t' || c = '\n' || c = Char.ofNat 12 || c = '\r' || c = ' '

/-- Go regexp's `\S` character class. -/
def reNonSpace (c : Char) : Bool := !reSpace c

/-- Go regexp's `.`: any character except a newline. -/
def reDot (c : Char) : Bool := c ≠ '\n'

/-- Length of the longest prefix whose characters satisfy `p`. -/
def maxRun (p : Char → Bool) : Str → Nat
  | [] => 0
  | c :: cs => if p c then maxRun p cs + 1 else 0

/-- `[n, n-1, ..., 0]`: greedy-quantifier candidate lengths, longest first. -/
def countdown : Nat → List Nat
  | 0 => [0]
  | n + 1 => (n + 1) :: countdown n

/-- First success of `f` over a candidate list (backtracking priority order). -/
def firstSome {α : Type} (f : Nat → Option α) : List Nat → Option α
  | [] => none
  | x :: xs =>
    match f x with
    | some r => some r
    | none => firstSome f xs

/-- Match the `Set` pattern at the start of `s` with leftmost-first
(greedy, backtracking) quantifier resolution, returning the three capture
groups on success. -/
def goVerMatchAt (s : Str) : Option (Str × Str × Str) :=
  firstSome (fun j =>
    match s.drop j with
    | [] => none
    | c :: rest =>
      if reSpace c then none
      else
        firstSome (fun k =>
          let g1 := c :: rest.take k
          let s2 := rest.drop k
          if strHasPre s2 (".Set".toList) then
            let s3 := s2.drop 4
            firstSome (fun k2 =>
              if k2 = 0 then none
              else
                let g2 := s3.take k2
                let s4 := s3.drop k2
                if strHasPre s4 ['('] then
                  let s5 := s4.drop 1
                  firstSome (fun k3 =>
                    if k3 = 0 then none
                    else
                      let s6 := s5.drop k3
                      if strHasPre s6 (", \"".toList) then
                        let s7 := s6.drop 3
                        firstSome (fun k4 =>
                          let g3 := s7.take k4
                          let s8 := s7.drop k4
                          if strHasPre s8 [quoteCh] then some (g1, g2, g3) else none)
                          (countdown (maxRun reDot s7))
                      else none)
                    (countdown (maxRun reNonSpace s5))
                else none)
              (countdown (maxRun reNonSpace s3))
          else none)
          (countdown (maxRun reDot rest)))
    (countdown (maxRun reSpace s))

/-- Models `verRegex.FindStringSubmatch line` (unanchored leftmost search):
try each start position from the left, returning the first position that
matches. -/
def goVerRegexMatch : Str → Option (Str × Str × Str)
  | [] => goVerMatchAt []
  | c :: cs =>
    match goVerMatchAt (c :: cs) with
    | some r => some r
    | none => goVerRegexMatch cs

/-- Wrap a literal in double quotes (`"\"" + s + "\""` in the Go source). -/
def quoted (s : Str) : Str := quoteCh :: (s ++ [quoteCh])

/-- Scanner state of `syncGolangFile`: the four flags, the init-nesting
counter, and the output buffer. -/
structure GoScanState where
  /-- `isPackageIncluded` in the source. -/
  pkgInc : Bool
  /-- `isPackageInitialized` in the source. -/
  pkgInit : Bool
  /-- `foundVersionMatch` in the source. -/
  foundVer : Bool
  /-- `rewrite` in the source. -/
  rewriteNeeded : Bool
  /-- `isInsideInit` in the source. -/
  insideInit : Nat
  /-- `buffer` in the source. -/
  buffer : Str
deriving DecidableEq, Repr

/-- One loop iteration of `syncGolangFile` (`main.go` lines 647-714) on a
scanned line `tok` (the source re-appends the newline first). -/
def goSyncLine (pv pb pc : Str) (st : GoScanState) (tok : Str) : GoScanState :=
  let line := lineOf tok
  if strContains line pkgNameStr then
    { st with pkgInc := true, buffer := st.buffer ++ line }
  else if strContains line funcInitStr then
    { st with buffer := st.buffer ++ line, insideInit := st.insideInit + 1 }
  else if st.insideInit = 1 && strHasPre line braceStr then
    { st with buffer := st.buffer ++ line, insideInit := st.insideInit + 1 }
  else if st.insideInit = 1 && strContains line ctorStr then
    { st with pkgInit := true, buffer := st.buffer ++ line }
  else if st.insideInit = 1 && st.pkgInit then
    match goVerRegexMatch line with
    | some (_, m2, m3) =>
      if m2 = verFieldStr then
        if m3 ≠ pv then
          { st with foundVer := true, rewriteNeeded := true,
                    buffer := st.buffer ++ strReplaceAll line (quoted m3) (quoted pv) }
        else
          { st with foundVer := true, buffer := st.buffer ++ line }
      else if m2 = branchFieldStr then
        if m3 ≠ pb then
          { st with rewriteNeeded := true,
                    buffer := st.buffer ++ strReplaceAll line (quoted m3) (quoted pb) }
        else
          { st with buffer := st.buffer ++ line }
      else if m2 = commitFieldStr then
        if m3 ≠ pc then
          { st with rewriteNeeded := true,
                    buffer := st.buffer ++ strReplaceAll line (quoted m3) (quoted pc) }
        else
          { st with buffer := st.buffer ++ line }
      else
        { st with buffer := st.buffer ++ line }
    | none => { st with buffer := st.buffer ++ line }
  else
    { st with buffer := st.buffer ++ line }

/-- The full scanning loop of `syncGolangFile` over the scanned lines. -/
def goScan (pv pb pc : Str) (ts : List Str) : GoScanState :=
  ts.foldl (goSyncLine pv pb pc) ⟨false, false, false, false, 0, []⟩

/-- Models `syncGolangFile` (`main.go` lines 631-741) on a readable file with
content `content` and permission bits `mode`: scan all lines, then fail on the
missing-marker conditions in source order, then write the buffer with fixed
mode `0644` when a replacement happened, and otherwise do not write.  (Note:
the Go dialect ignores `mode` on write.) -/
def syncGolangFile (pv pb pc content : Str) (mode : Nat) : SyncResult :=
  let st := goScan pv pb pc (scanLines content)
  if st.pkgInc = false then .err .pkgNotFound
  else if st.pkgInit = false then .err .pkgNotInit
  else if st.foundVer = false then .err .verNotFound
  else if st.rewriteNeeded then .write st.buffer 0o644
  else (fun _ => .noWrite) mode

/-- Scanner state of `syncPythonFile` / `syncJavascriptFile`. -/
structure LineScanState where
  /-- `isVersionDunderExist` / `isVersionFound` in the source. -/
  found : Bool
  /-- `fileVersion` in the source. -/
  fileVersion : Str
  /-- `buffer` in the source. -/
  buffer : Str
  /-- Set when Go would panic (index out of range on `SplitN(...)[1]`). -/
  aborted : Bool
deriving DecidableEq, Repr

/-- The replacement line `"__version__ = '" + pkg.Version + "'\n"` written by
`syncPythonFile`. -/
def pyDunderLine (pv : Str) : Str :=
  "__version__ = ".toList ++ squoteCh :: (pv ++ [squoteCh, '\n'])

/-- One loop iteration of `syncPythonFile` (`main.go` lines 597-615) on a
scanned line `tok` (the source re-appends the newline first).  A
`__version__`-prefixed line with no `=` makes Go index `SplitN(line, "=", 2)[1]`
out of range; this is the `aborted` case. -/
def pySyncLine (pv : Str) (st : LineScanState) (tok : Str) : LineScanState :=
  if st.aborted then st
  else
    let line := lineOf tok
    if strHasPre line dunderStr then
      match (strSplitN2 '=' line).2 with
      | none => { st with aborted := true }
      | some rhs =>
        let v := strTrimSpace rhs
        let v := strReplaceAll v [squoteCh] []
        let v := strReplaceAll v [quoteCh] []
        if v ≠ pv then
          { st with found := true, fileVersion := v, buffer := st.buffer ++ pyDunderLine pv }
        else
          { st with found := true, fileVersion := v, buffer := st.buffer ++ line }
    else
      { st with buffer := st.buffer ++ line }

/-- Models `syncPythonFile` (`main.go` lines 584-629) on a readable file:
scan all lines, fail when no `__version__` line was seen, write the buffer
with the file's own permission bits when the last seen value differs from the
snapshot version, and otherwise do not write. -/
def syncPythonFile (pv content : Str) (mode : Nat) : SyncResult :=
  let st := (scanLines content).foldl (pySyncLine pv) ⟨false, [], [], false⟩
  if st.aborted then .aborted
  else if st.found = false then .err .dunderNotFound
  else if pv ≠ st.fileVersion then .write st.buffer mode
  else .noWrite

/-- One loop iteration of `syncJavascriptFile` (`main.go` lines 546-565) on a
scanned line `tok` (this dialect works on the line without its newline and
appends the newline when writing to the buffer). -/
def jsSyncLine (pv : Str) (st : LineScanState) (tok : Str) : LineScanState :=
  if st.aborted then st
  else if strContains tok jsMarkerStr then
    match (strSplitN2 ':' tok).2 with
    | none => { st with aborted := true }
    | some rhs =>
      let v := strTrimSpace rhs
      let v := strReplaceAll v [','] []
      let v := strReplaceAll v [squoteCh] []
      let v := strReplaceAll v [quoteCh] []
      let v := strTrimSpace v
      if v ≠ pv then
        { st with found := true, fileVersion := v,
                  buffer := st.buffer ++ strReplaceAll tok v pv ++ ['\n'] }
      else
        { st with found := true, fileVersion := v, buffer := st.buffer ++ tok ++ ['\n'] }
  else
    { st with buffer := st.buffer ++ tok ++ ['\n'] }

/-- Models `syncJavascriptFile` (`main.go` lines 534-579) on a readable file:
scan all lines, fail when no `"Version: "` line was seen, write the buffer
with the file's own permission bits when the last seen value differs from the
snapshot version, and otherwise do not write. -/
def syncJavascriptFile (pv content : Str) (mode : Nat) : SyncResult :=
  let st := (scanLines content).foldl (jsSyncLine pv) ⟨false, [], [], false⟩
  if st.aborted then .aborted
  else if st.found = false then .err .jsVerNotFound
  else if pv ≠ st.fileVersion then .write st.buffer mode
  else .noWrite

/-! ## C1: increment operations -/

/-- C1: for every `Version` and every `uint64` argument, `IncrementMajor`
advances `Major` by exactly 1 (independently of the argument, which is
ignored) and resets `Minor` and `Patch` to 0; `IncrementMinor` advances
`Minor` by 1 and resets `Patch`, leaving `Major` unchanged; `IncrementPatch`
advances `Patch` by 1, leaving `Major` and `Minor` unchanged; and chaining the
three on `1.0.0` yields `2.1.1`.  (The by-1 statements carry the no-overflow
hypotheses that come with `uint64` arithmetic.) -/
theorem increment_ops_spec (v : Version) (i j k : Nat) (f : Str)
    (hM : v.Major + 1 < 2 ^ 64) (hm : v.Minor + 1 < 2 ^ 64) (hp : v.Patch + 1 < 2 ^ 64) :
    IncrementMajor v i = ⟨v.Major + 1, 0, 0, v.FileName⟩ ∧
    IncrementMajor v i = IncrementMajor v 1 ∧
    IncrementMinor v j = ⟨v.Major, v.Minor + 1, 0, v.FileName⟩ ∧
    IncrementMinor v j = IncrementMinor v 1 ∧
    IncrementPatch v k = ⟨v.Major, v.Minor, v.Patch + 1, v.FileName⟩ ∧
    IncrementPatch v k = IncrementPatch v 1 ∧
    IncrementPatch (IncrementMinor (IncrementMajor ⟨1, 0, 0, f⟩ i) j) k = ⟨2, 1, 1, f⟩ := by
  refine ⟨?_, rfl, ?_, rfl, ?_, rfl, ?_⟩ <;>
    simp [IncrementMajor, IncrementMinor, IncrementPatch, Nat.mod_eq_of_lt, hM, hm, hp] <;>
    omega

/-- Witness for C1 at the version `1.2.3` with argument `7`. -/
theorem increment_ops_spec_witness :
    IncrementMajor ⟨1, 2, 3, []⟩ 7 = ⟨2, 0, 0, []⟩ ∧
    IncrementPatch (IncrementMinor (IncrementMajor ⟨1, 0, 0, []⟩ 7) 7) 7 = ⟨2, 1, 1, []⟩ := by
  have h := increment_ops_spec ⟨1, 2, 3, []⟩ 7 7 7 [] (by decide) (by decide) (by decide)
  exact ⟨h.1, (increment_ops_spec ⟨1, 0, 0, []⟩ 7 7 7 [] (by decide) (by decide)
    (by decide)).2.2.2.2.2.2⟩

/-! ## C7: parse error taxonomy and check order -/

/-- C7: `NewVersion` rejects the empty string with the empty-input error;
any nonempty string that does not split on `.` into exactly three parts fails
with the malformed-version error; with exactly three parts, an unparseable
first/second/third part fails with the invalid-major/minor/patch error, the
checks being applied in that order (each clause presupposes the previous
checks passed); `"1.1.1.1"` and `"1aZ.1.1"` are concrete instances. -/
theorem newVersion_error_order :
    NewVersion [] = .error .emptyString ∧
    (∀ s : Str, s ≠ [] → (strSplit '.' s).length ≠ 3 → NewVersion s = .error .malformed) ∧
    (∀ s p0 p1 p2 : Str, strSplit '.' s = [p0, p1, p2] → goParseUint p0 = none →
      NewVersion s = .error .invalidMajor) ∧
    (∀ s p0 p1 p2 : Str, strSplit '.' s = [p0, p1, p2] → goParseUint p0 ≠ none →
      goParseUint p1 = none → NewVersion s = .error .invalidMinor) ∧
    (∀ s p0 p1 p2 : Str, strSplit '.' s = [p0, p1, p2] → goParseUint p0 ≠ none →
      goParseUint p1 ≠ none → goParseUint p2 = none → NewVersion s = .error .invalidPatch) ∧
    NewVersion ("1.1.1.1".toList) = .error .malformed ∧
    NewVersion ("1aZ.1.1".toList) = .error .invalidMajor := by
  refine ⟨rfl, ?_, ?_, ?_, ?_, rfl, rfl⟩
  · intro s hne hlen
    unfold NewVersion
    rw [if_neg hne]
    split
    · next p0 p1 p2 heq => rw [heq] at hlen; simp at hlen
    · rfl
  · intro s p0 p1 p2 hsplit hp0
    have hne : s ≠ [] := by rintro rfl; simp [strSplit] at hsplit
    unfold NewVersion
    rw [if_neg hne, hsplit]
    simp only [hp0]
  · intro s p0 p1 p2 hsplit hp0 hp1
    have hne : s ≠ [] := by rintro rfl; simp [strSplit] at hsplit
    obtain ⟨a, ha⟩ := Option.ne_none_iff_exists'.mp hp0
    unfold NewVersion
    rw [if_neg hne, hsplit]
    simp only [ha, hp1]
  · intro s p0 p1 p2 hsplit hp0 hp1 hp2
    have hne : s ≠ [] := by rintro rfl; simp [strSplit] at hsplit
    obtain ⟨a, ha⟩ := Option.ne_none_iff_exists'.mp hp0
    obtain ⟨b, hb⟩ := Option.ne_none_iff_exists'.mp hp1
    unfold NewVersion
    rw [if_neg hne, hsplit]
    simp only [ha, hb, hp2]

/-- Witness for C7: the malformed-version clause applied at `"1.2"` and the
invalid-minor clause applied at `".x."`. -/
theorem newVersion_error_order_witness :
    NewVersion ("1.2".toList) = .error .malformed ∧
    NewVersion ("0.x.3".toList) = .error .invalidMinor := by
  refine ⟨newVersion_error_order.2.1 _ (by decide) (by decide), ?_⟩
  exact newVersion_error_order.2.2.2.1 _ ['0'] ['x'] ['3'] (by decide) (by decide) (by decide)

/-! ## C8: parse/print round trip -/

/-- Decimal digit characters are digits with the expected value. -/
theorem digitChar_isDigit {d : Nat} (h : d < 10) :
    Char.isDigit (digitChar d) = true ∧ charVal (digitChar d) = d := by
  interval_cases d <;> exact ⟨rfl, rfl⟩

/-- With enough fuel, `natReprAux` produces a nonempty digit string whose
decimal value is the printed number. -/
theorem natReprAux_spec : ∀ fuel n : Nat, n < fuel →
    natReprAux fuel n ≠ [] ∧ (∀ c ∈ natReprAux fuel n, Char.isDigit c) ∧
      digitsVal (natReprAux fuel n) = n := by
  intro fuel
  induction fuel with
  | zero => intro n h; omega
  | succ f ih =>
    intro n h
    unfold natReprAux
    by_cases h10 : n < 10
    · rw [if_pos h10]
      have hd := digitChar_isDigit h10
      refine ⟨by simp, ?_, ?_⟩
      · intro c hc
        simp only [List.mem_singleton] at hc
        subst hc
        exact hd.1
      · simp [digitsVal, hd.2]
    · rw [if_neg h10]
      have hdiv : n / 10 < f := by omega
      obtain ⟨hne, hdig, hval⟩ := ih (n / 10) hdiv
      have hmod := digitChar_isDigit (Nat.mod_lt n (by norm_num) : n % 10 < 10)
      refine ⟨by simp [hne], ?_, ?_⟩
      · intro x hx
        rcases List.mem_append.mp hx with h1 | h2
        · exact hdig x h1
        · simp only [List.mem_singleton] at h2
          subst h2
          exact hmod.1
      · unfold digitsVal at hval ⊢
        rw [List.foldl_append, hval]
        simp only [List.foldl_cons, List.foldl_nil, hmod.2]
        omega

/-- `natRepr` is never the empty string. -/
theorem natRepr_ne_nil (n : Nat) : natRepr n ≠ [] :=
  (natReprAux_spec (n + 1) n (Nat.lt_succ_self n)).1

/-- Every character of `natRepr n` is a decimal digit. -/
theorem natRepr_all_digits (n : Nat) : ∀ c ∈ natRepr n, Char.isDigit c :=
  (natReprAux_spec (n + 1) n (Nat.lt_succ_self n)).2.1

/-- `'.'` never occurs in a printed natural number. -/
theorem dot_not_mem_natRepr (n : Nat) : '.' ∉ natRepr n := by
  intro h
  have := natRepr_all_digits n '.' h
  simp [Char.isDigit] at this

/-- `strconv.ParseUint` inverts decimal printing for 64-bit values. -/
theorem goParseUint_natRepr {n : Nat} (h : n < 2 ^ 64) : goParseUint (natRepr n) = some n := by
  obtain ⟨hne, hdig, hval⟩ := natReprAux_spec (n + 1) n (Nat.lt_succ_self n)
  have hall : (natReprAux (n + 1) n).all Char.isDigit = true :=
    List.all_eq_true.mpr (fun c hc => hdig c hc)
  unfold goParseUint natRepr
  rw [if_neg hne, if_pos hall, hval, if_pos h]

/-- `strings.Split` never returns an empty list of parts. -/
theorem strSplit_ne_nil (sep : Char) (l : Str) : strSplit sep l ≠ [] := by
  cases l with
  | nil => simp [strSplit]
  | cons c cs =>
    unfold strSplit
    cases hs : strSplit sep cs with
    | nil => simp
    | cons h t => by_cases hc : c = sep <;> simp [hc]

/-- A separator-free string splits into itself alone. -/
theorem strSplit_not_mem (sep : Char) : ∀ l : Str, sep ∉ l → strSplit sep l = [l] := by
  intro l
  induction l with
  | nil => intro h; rfl
  | cons c cs ih =>
    intro h
    have hc : c ≠ sep := fun e => h (e ▸ List.mem_cons_self c cs)
    have hcs : sep ∉ cs := fun m => h (List.mem_cons_of_mem _ m)
    unfold strSplit
    rw [ih hcs]
    simp [hc]

/-- Splitting peels off a separator-free part before the first separator. -/
theorem strSplit_append_cons (sep : Char) (r : Str) :
    ∀ l : Str, sep ∉ l → strSplit sep (l ++ sep :: r) = l :: strSplit sep r := by
  intro l
  induction l with
  | nil =>
    intro _
    simp only [List.nil_append]
    conv_lhs => unfold strSplit
    cases hs : strSplit sep r with
    | nil => exact absurd hs (strSplit_ne_nil sep r)
    | cons h t => simp
  | cons c cs ih =>
    intro h
    have hc : c ≠ sep := fun e => h (e ▸ List.mem_cons_self c cs)
    have hcs : sep ∉ cs := fun m => h (List.mem_cons_of_mem _ m)
    simp only [List.cons_append]
    conv_lhs => unfold strSplit
    rw [ih hcs]
    simp [hc]

/-- The string `"{a}.{b}.{c}"` built from three printed naturals. -/
def verTripleStr (a b c : Nat) : Str :=
  natRepr a ++ ('.' :: (natRepr b ++ ('.' :: natRepr c)))

/-- C8: for all 64-bit naturals `a`, `b`, `c`, parsing the string
`"{a}.{b}.{c}"` succeeds, and re-parsing the string form of the parsed version
gives the same parse result (round trip). -/
theorem parse_toString_roundtrip (a b c : Nat)
    (ha : a < 2 ^ 64) (hb : b < 2 ^ 64) (hc : c < 2 ^ 64) :
    ∃ v : Version,
      NewVersion (verTripleStr a b c) = .ok v ∧
      NewVersion (Version.toStr v) = NewVersion (verTripleStr a b c) := by
  have hsplit : strSplit '.' (verTripleStr a b c) = [natRepr a, natRepr b, natRepr c] := by
    unfold verTripleStr
    rw [strSplit_append_cons '.' _ _ (dot_not_mem_natRepr a),
        strSplit_append_cons '.' _ _ (dot_not_mem_natRepr b),
        strSplit_not_mem '.' _ (dot_not_mem_natRepr c)]
  have hne : verTripleStr a b c ≠ [] := by
    unfold verTripleStr
    cases h : natRepr a with
    | nil => exact absurd h (natRepr_ne_nil a)
    | cons x xs => simp [h]
  have hok : NewVersion (verTripleStr a b c) = .ok ⟨a, b, c, "VERSION".toList⟩ := by
    unfold NewVersion
    rw [if_neg hne, hsplit]
    simp only [goParseUint_natRepr ha, goParseUint_natRepr hb, goParseUint_natRepr hc]
  exact ⟨⟨a, b, c, "VERSION".toList⟩, hok, rfl⟩

/-- Witness for C8 at `a = 1`, `b = 22`, `c = 3`. -/
theorem parse_toString_roundtrip_witness :
    ∃ v : Version,
      NewVersion (verTripleStr 1 22 3) = .ok v ∧
      NewVersion (Version.toStr v) = NewVersion (verTripleStr 1 22 3) :=
  parse_toString_roundtrip 1 22 3 (by norm_num) (by norm_num) (by norm_num)

/-! ## C10: loading from an empty or blank-first-line version file -/

/-- C10: for a readable version file that has no lines at all, or whose first
line trims to the empty string, `readVersionFromFile` successfully returns
the empty string, and `NewVersionFromFile` then fails with the parser's
empty-input error (not a file-read error), returning no version. -/
theorem emptyVersionFile_parse_error (path content : Str)
    (h : scanLines content = [] ∨
      ∃ t r, scanLines content = t :: r ∧ strTrimSpace t = []) :
    readVersionFromFile content = [] ∧
    NewVersionFromFile path content = .error .emptyString := by
  have hr : readVersionFromFile content = [] := by
    unfold readVersionFromFile
    rcases h with h | ⟨t, r, ht, htrim⟩
    · rw [h]
    · rw [ht]; exact htrim
  refine ⟨hr, ?_⟩
  unfold NewVersionFromFile
  rw [hr]
  rfl

/-- Witness for C10 at a file whose first line is two spaces. -/
theorem emptyVersionFile_parse_error_witness :
    readVersionFromFile ("  \nx".toList) = [] ∧
    NewVersionFromFile [] ("  \nx".toList) = .error .emptyString :=
  emptyVersionFile_parse_error [] ("  \nx".toList)
    (Or.inr ⟨"  ".toList, ["x".toList], by decide, by decide⟩)

/-! ## Shared infrastructure for the sync proofs -/

/-- Rebuild file content from tokens, one `'\n'`-terminated line each. -/
def joinLF (ts : List Str) : Str := (ts.map lineOf).flatten

/-- A token that `scanLines` reproduces exactly: it contains no newline and
does not end in a carriage return. -/
def goodTok (t : Str) : Prop := '\n' ∉ t ∧ t.getLast? ≠ some '\r'

instance (t : Str) : Decidable (goodTok t) := by unfold goodTok; infer_instance

theorem joinLF_append (a b : List Str) : joinLF (a ++ b) = joinLF a ++ joinLF b := by
  simp [joinLF]

theorem joinLF_cons (t : Str) (ts : List Str) : joinLF (t :: ts) = lineOf t ++ joinLF ts := by
  simp [joinLF]

theorem joinLF_ne_nil (t : Str) (ts : List Str) : joinLF (t :: ts) ≠ [] := by
  simp [joinLF, lineOf]

theorem getLast?_joinLF : ∀ (ts : List Str) (t : Str), (joinLF (t :: ts)).getLast? = some '\n' := by
  intro ts
  induction ts with
  | nil =>
    intro t
    simp [joinLF, lineOf]
  | cons u us ih =>
    intro t
    rw [joinLF_cons, List.getLast?_append, ih u]
    rfl

theorem strSplit_joinLF : ∀ ts : List Str, (∀ t ∈ ts, '\n' ∉ t) →
    strSplit '\n' (joinLF ts) = ts ++ [[]] := by
  intro ts
  induction ts with
  | nil => intro _; rfl
  | cons t ts ih =>
    intro h
    rw [joinLF_cons]
    simp only [lineOf, List.append_assoc, List.singleton_append]
    rw [strSplit_append_cons '\n' _ _ (h t (List.mem_cons_self t ts)),
      ih (fun u hu => h u (List.mem_cons_of_mem _ hu))]
    rfl

theorem dropCR_eq_self {t : Str} (h : t.getLast? ≠ some '\r') : dropCR t = t := by
  unfold dropCR
  rw [if_neg h]

/-- `scanLines` recovers the tokens of a file built from good tokens. -/
theorem scanLines_joinLF {ts : List Str} (h : ∀ t ∈ ts, goodTok t) :
    scanLines (joinLF ts) = ts := by
  cases ts with
  | nil => rfl
  | cons t rest =>
    unfold scanLines
    rw [if_neg (joinLF_ne_nil t rest), if_pos (getLast?_joinLF rest t),
      strSplit_joinLF (t :: rest) (fun u hu => (h u hu).1),
      List.dropLast_concat]
    have hmap : ∀ L : List Str, (∀ u ∈ L, dropCR u = u) → L.map dropCR = L := by
      intro L
      induction L with
      | nil => intro _; rfl
      | cons a as iha =>
        intro hL
        rw [List.map_cons, hL a (List.mem_cons_self a as),
          iha (fun u hu => hL u (List.mem_cons_of_mem _ hu))]
    exact hmap (t :: rest) (fun u hu => dropCR_eq_self (h u hu).2)

/-- A matched pattern's characters all occur in the string. -/
theorem strHasPre_mem : ∀ s pat : Str, strHasPre s pat = true → ∀ c ∈ pat, c ∈ s := by
  intro s
  induction s with
  | nil =>
    intro pat h c hc
    cases pat with
    | nil => simp at hc
    | cons p ps => simp [strHasPre] at h
  | cons x xs ih =>
    intro pat h c hc
    cases pat with
    | nil => simp at hc
    | cons p ps =>
      simp only [strHasPre, Bool.and_eq_true, decide_eq_true_eq] at h
      rcases List.mem_cons.mp hc with rfl | hc
      · exact h.1 ▸ List.mem_cons_self _ _
      · exact List.mem_cons_of_mem _ (ih ps h.2 c hc)

/-- A contained pattern's characters all occur in the string. -/
theorem strContains_mem : ∀ s pat : Str, strContains s pat = true → ∀ c ∈ pat, c ∈ s := by
  intro s
  induction s with
  | nil =>
    intro pat h c hc
    cases pat with
    | nil => simp at hc
    | cons p ps => simp [strContains, strHasPre] at h
  | cons x xs ih =>
    intro pat h c hc
    simp only [strContains, Bool.or_eq_true] at h
    rcases h with h | h
    · exact strHasPre_mem _ _ h c hc
    · exact List.mem_cons_of_mem _ (ih pat h c hc)

/-- `SplitN _ sep 2` finds a second part exactly when the separator occurs. -/
theorem strSplitN2_eq_none (sep : Char) : ∀ s : Str, (strSplitN2 sep s).2 = none ↔ sep ∉ s := by
  intro s
  induction s with
  | nil => simp [strSplitN2]
  | cons c cs ih =>
    by_cases hc : c = sep
    · subst hc
      simp [strSplitN2]
    · simp only [strSplitN2, if_neg hc]
      rw [ih]
      simp only [List.mem_cons, not_or]
      exact ⟨fun h => ⟨fun e => hc e.symm, h⟩, fun h => h.2⟩

/-! ## JavaScript/TypeScript dialect characterization -/

/-- The version value `syncJavascriptFile` parses out of a matched line:
everything after the first colon, trimmed, with commas and quotes removed,
trimmed again. -/
def jsVal (tok : Str) : Str :=
  match (strSplitN2 ':' tok).2 with
  | none => []
  | some rhs =>
    strTrimSpace
      (strReplaceAll (strReplaceAll (strReplaceAll (strTrimSpace rhs) [','] []) [squoteCh] [])
        [quoteCh] [])

/-- Per-line output of the JavaScript scanner: a matched line whose parsed
value differs from the snapshot version has every occurrence of that value
replaced; any other line is copied; either way a `'\n'` is appended. -/
def jsLineOut (pv tok : Str) : Str :=
  if strContains tok jsMarkerStr then
    (if jsVal tok ≠ pv then strReplaceAll tok (jsVal tok) pv else tok) ++ ['\n']
  else tok ++ ['\n']

/-- A line containing `"Version: "` contains a colon, so `SplitN` finds a
second part. -/
theorem jsMarker_colon {tok : Str} (h : strContains tok jsMarkerStr = true) :
    ∃ rhs, (strSplitN2 ':' tok).2 = some rhs := by
  have hc : ':' ∈ tok := strContains_mem _ _ h ':' (by decide)
  cases ho : (strSplitN2 ':' tok).2 with
  | none => exact absurd hc ((strSplitN2_eq_none ':' tok).mp ho)
  | some rhs => exact ⟨rhs, rfl⟩

/-- One JavaScript scanner step, in closed form. -/
theorem jsSyncLine_eq (pv : Str) (st : LineScanState) (tok : Str) (hab : st.aborted = false) :
    jsSyncLine pv st tok =
      { found := st.found || strContains tok jsMarkerStr,
        fileVersion := if strContains tok jsMarkerStr then jsVal tok else st.fileVersion,
        buffer := st.buffer ++ jsLineOut pv tok,
        aborted := false } := by
  by_cases hm : strContains tok jsMarkerStr = true
  · obtain ⟨rhs, hrhs⟩ := jsMarker_colon hm
    have hval : jsVal tok =
        strTrimSpace
          (strReplaceAll (strReplaceAll (strReplaceAll (strTrimSpace rhs) [','] []) [squoteCh] [])
            [quoteCh] []) := by
      unfold jsVal
      rw [hrhs]
    by_cases hv : jsVal tok ≠ pv
    · simp only [jsSyncLine, jsLineOut, hab, hm, hrhs, if_true, if_false, Bool.false_eq_true,
        ← hval, hv, if_pos hv, Bool.or_true]
      simp [hv]
    · simp only [jsSyncLine, jsLineOut, hab, hm, hrhs, if_true, if_false, Bool.false_eq_true,
        ← hval, if_neg hv, Bool.or_true]
      simp [hv]
  · simp only [Bool.not_eq_true] at hm
    simp [jsSyncLine, jsLineOut, hab, hm]

/-- The `fileVersion` field after a full scan: the parsed value of the last
matched line, if any. -/
def jsFinalVer (dflt : Str) (ts : List Str) : Str :=
  match (ts.filter (fun t => strContains t jsMarkerStr)).getLast? with
  | none => dflt
  | some t => jsVal t

theorem jsFinalVer_cons (d t : Str) (ts : List Str) :
    jsFinalVer d (t :: ts) =
      jsFinalVer (if strContains t jsMarkerStr then jsVal t else d) ts := by
  unfold jsFinalVer
  by_cases hm : strContains t jsMarkerStr = true
  · cases hfil : ts.filter (fun t => strContains t jsMarkerStr) with
    | nil => simp [List.filter_cons, hm, hfil]
    | cons a as =>
      simp only [List.filter_cons, hm, if_true, hfil, List.getLast?_cons_cons]
      cases hg : (a :: as).getLast? with
      | none =>
        have hne : (a :: as) ≠ [] := by simp
        rw [← List.getLast?_isSome, hg] at hne
        simp at hne
      | some x => rfl
  · simp only [Bool.not_eq_true] at hm
    simp [List.filter_cons, hm]

/-- The whole JavaScript scanning loop, in closed form. -/
theorem jsScan_eq (pv : Str) : ∀ (ts : List Str) (st : LineScanState), st.aborted = false →
    ts.foldl (jsSyncLine pv) st =
      { found := st.found || ts.any (fun t => strContains t jsMarkerStr),
        fileVersion := jsFinalVer st.fileVersion ts,
        buffer := st.buffer ++ (ts.map (jsLineOut pv)).flatten,
        aborted := false } := by
  intro ts
  induction ts with
  | nil =>
    intro st hab
    obtain ⟨f, fv, buf, ab⟩ := st
    simp only at hab
    subst hab
    simp [jsFinalVer]
  | cons t ts ih =>
    intro st hab
    rw [List.foldl_cons, jsSyncLine_eq pv st t hab, ih _ rfl]
    simp [jsFinalVer_cons, List.any_cons, Bool.or_assoc, List.append_assoc]

/-- `syncJavascriptFile`, in closed form. -/
theorem syncJavascriptFile_eq (pv content : Str) (mode : Nat) :
    syncJavascriptFile pv content mode =
      if (scanLines content).any (fun t => strContains t jsMarkerStr) = false
      then .err .jsVerNotFound
      else if pv ≠ jsFinalVer [] (scanLines content)
      then .write (((scanLines content).map (jsLineOut pv)).flatten) mode
      else .noWrite := by
  unfold syncJavascriptFile
  rw [jsScan_eq pv _ _ rfl]
  simp

/-! ## C9: JavaScript/TypeScript marker and replacement behavior -/

/-- C9: the JavaScript/TypeScript scanner recognizes a line only if it
contains the exact substring `"Version: "` with the trailing space — a file
whose lines never contain that substring (such as one holding only
`Version:'1.0.0'`) fails with the version-not-found error — and when a
rewrite occurs the written buffer is the per-line image under `jsLineOut`,
which on a matched line whose parsed value differs from the snapshot replaces
every occurrence of the old version substring anywhere on that line. -/
theorem js_sync_marker_and_replace :
    (∀ pv content : Str, ∀ mode : Nat,
      (∀ t ∈ scanLines content, strContains t jsMarkerStr = false) →
      syncJavascriptFile pv content mode = .err .jsVerNotFound) ∧
    (∀ mode : Nat,
      syncJavascriptFile ("2.0.0".toList) (lineOf ("Version:'1.0.0'".toList)) mode
        = .err .jsVerNotFound) ∧
    (∀ pv tok : Str, strContains tok jsMarkerStr = true → jsVal tok ≠ pv →
      jsLineOut pv tok = strReplaceAll tok (jsVal tok) pv ++ ['\n']) ∧
    (∀ (pv content : Str) (mode : Nat) (b : Str) (m : Nat),
      syncJavascriptFile pv content mode = .write b m →
      b = ((scanLines content).map (jsLineOut pv)).flatten ∧ m = mode) := by
  refine ⟨?_, fun mode => rfl, ?_, ?_⟩
  · intro pv content mode h
    rw [syncJavascriptFile_eq]
    rw [if_pos (List.any_eq_false.mpr (fun t ht => by simp [h t ht]))]
  · intro pv tok hm hv
    simp [jsLineOut, hm, hv]
  · intro pv content mode b m h
    rw [syncJavascriptFile_eq] at h
    by_cases h1 : ((scanLines content).any fun t => strContains t jsMarkerStr) = false
    · rw [if_pos h1] at h
      cases h
    · rw [if_neg h1] at h
      by_cases h2 : pv ≠ jsFinalVer [] (scanLines content)
      · rw [if_pos h2] at h
        injection h with hb hm
        exact ⟨hb.symm, hm.symm⟩
      · rw [if_neg h2] at h
        cases h

/-- Witness for C9: the no-space line is rejected, and a matched line is
rewritten by whole-line replacement. -/
theorem js_sync_marker_and_replace_witness :
    syncJavascriptFile ("1.0.0".toList) ("x = 1\n".toList) 420 = .err .jsVerNotFound ∧
    jsLineOut ("2.0.0".toList) ("Version: '1.0.0',".toList) =
      strReplaceAll ("Version: '1.0.0',".toList) (jsVal ("Version: '1.0.0',".toList))
        ("2.0.0".toList) ++ ['\n'] := by
  constructor
  · exact js_sync_marker_and_replace.1 _ _ 420 (by decide)
  · exact js_sync_marker_and_replace.2.2.1 _ _ (by decide) (by decide)

/-! ## Python dialect characterization -/

/-- Whether the Python scanner matches a scanned line (prefix `__version__`
of the line with its newline re-appended). -/
def pyMatchTok (tok : Str) : Bool := strHasPre (lineOf tok) dunderStr

/-- The version value the Python scanner parses out of a matched line:
everything after the first `=`, trimmed, with single and double quotes
removed; `none` when the line has no `=` (in which case Go panics). -/
def pyValOpt (tok : Str) : Option Str :=
  match (strSplitN2 '=' (lineOf tok)).2 with
  | none => none
  | some rhs =>
    some (strReplaceAll (strReplaceAll (strTrimSpace rhs) [squoteCh] []) [quoteCh] [])

/-- Per-line output of the Python scanner: a matched line whose parsed value
differs from the snapshot version is rewritten as `__version__ = '<v>'`; any
other line is copied with its newline. -/
def pyLineOut (pv tok : Str) : Str :=
  if pyMatchTok tok then
    match pyValOpt tok with
    | none => []
    | some v => if v ≠ pv then pyDunderLine pv else lineOf tok
  else lineOf tok

/-- One Python scanner step, in closed form (on lines that do not panic). -/
theorem pySyncLine_eq (pv : Str) (st : LineScanState) (tok : Str) (hab : st.aborted = false)
    (hok : pyMatchTok tok = true → (pyValOpt tok).isSome = true) :
    pySyncLine pv st tok =
      { found := st.found || pyMatchTok tok,
        fileVersion := if pyMatchTok tok then (pyValOpt tok).getD [] else st.fileVersion,
        buffer := st.buffer ++ pyLineOut pv tok,
        aborted := false } := by
  have hstep : pySyncLine pv st tok =
      (if strHasPre (lineOf tok) dunderStr = true then
        match (strSplitN2 '=' (lineOf tok)).2 with
        | none => { st with aborted := true }
        | some rhs =>
          if strReplaceAll (strReplaceAll (strTrimSpace rhs) [squoteCh] []) [quoteCh] [] ≠ pv then
            { st with found := true,
                      fileVersion :=
                        strReplaceAll (strReplaceAll (strTrimSpace rhs) [squoteCh] []) [quoteCh] [],
                      buffer := st.buffer ++ pyDunderLine pv }
          else
            { st with found := true,
                      fileVersion :=
                        strReplaceAll (strReplaceAll (strTrimSpace rhs) [squoteCh] []) [quoteCh] [],
                      buffer := st.buffer ++ lineOf tok }
      else { st with buffer := st.buffer ++ lineOf tok }) := by
    simp [pySyncLine, hab]
  rw [hstep]
  by_cases hm : pyMatchTok tok = true
  · have hm' : strHasPre (lineOf tok) dunderStr = true := hm
    cases hr : (strSplitN2 '=' (lineOf tok)).2 with
    | none =>
      have hs : (pyValOpt tok).isSome = true := hok hm
      unfold pyValOpt at hs
      rw [hr] at hs
      simp at hs
    | some rhs =>
      have hval : pyValOpt tok =
          some (strReplaceAll (strReplaceAll (strTrimSpace rhs) [squoteCh] []) [quoteCh] []) := by
        unfold pyValOpt
        rw [hr]
      rw [if_pos hm']
      by_cases hv : strReplaceAll (strReplaceAll (strTrimSpace rhs) [squoteCh] []) [quoteCh] [] ≠ pv
      · simp only [hv, if_true, pyLineOut, hm, hval, Option.getD_some]
        simp [hv, hab]
      · simp only [hv, if_false, pyLineOut, hm, hval, Option.getD_some]
        simp [hv, hab]
  · simp only [Bool.not_eq_true] at hm
    have hm' : strHasPre (lineOf tok) dunderStr = false := hm
    simp [hm', pyLineOut, hm, hab]

/-- The `fileVersion` field after a full Python scan: the parsed value of the
last matched line, if any. -/
def pyFinalVer (dflt : Str) (ts : List Str) : Str :=
  match (ts.filter pyMatchTok).getLast? with
  | none => dflt
  | some t => (pyValOpt t).getD []

theorem pyFinalVer_cons (d t : Str) (ts : List Str) :
    pyFinalVer d (t :: ts) =
      pyFinalVer (if pyMatchTok t then (pyValOpt t).getD [] else d) ts := by
  unfold pyFinalVer
  by_cases hm : pyMatchTok t = true
  · cases hfil : ts.filter pyMatchTok with
    | nil => simp [List.filter_cons, hm, hfil]
    | cons a as =>
      simp only [List.filter_cons, hm, if_true, hfil, List.getLast?_cons_cons]
      cases hg : (a :: as).getLast? with
      | none =>
        have hne : (a :: as) ≠ [] := by simp
        rw [← List.getLast?_isSome, hg] at hne
        simp at hne
      | some x => rfl
  · simp only [Bool.not_eq_true] at hm
    simp [List.filter_cons, hm]

/-- The whole Python scanning loop, in closed form (no line panics). -/
theorem pyScan_eq (pv : Str) : ∀ (ts : List Str) (st : LineScanState), st.aborted = false →
    (∀ t ∈ ts, pyMatchTok t = true → (pyValOpt t).isSome = true) →
    ts.foldl (pySyncLine pv) st =
      { found := st.found || ts.any pyMatchTok,
        fileVersion := pyFinalVer st.fileVersion ts,
        buffer := st.buffer ++ (ts.map (pyLineOut pv)).flatten,
        aborted := false } := by
  intro ts
  induction ts with
  | nil =>
    intro st hab _
    obtain ⟨f, fv, buf, ab⟩ := st
    simp only at hab
    subst hab
    simp [pyFinalVer]
  | cons t ts ih =>
    intro st hab hok
    rw [List.foldl_cons, pySyncLine_eq pv st t hab (hok t (List.mem_cons_self t ts)),
      ih _ rfl (fun u hu => hok u (List.mem_cons_of_mem _ hu))]
    simp [pyFinalVer_cons, List.any_cons, Bool.or_assoc, List.append_assoc]

/-- `syncPythonFile`, in closed form (no line panics). -/
theorem syncPythonFile_eq (pv content : Str) (mode : Nat)
    (h : ∀ t ∈ scanLines content, pyMatchTok t = true → (pyValOpt t).isSome = true) :
    syncPythonFile pv content mode =
      if (scanLines content).any pyMatchTok = false then .err .dunderNotFound
      else if pv ≠ pyFinalVer [] (scanLines content)
      then .write (((scanLines content).map (pyLineOut pv)).flatten) mode
      else .noWrite := by
  unfold syncPythonFile
  rw [pyScan_eq pv _ _ rfl h]
  simp

/-! ## C6: Python dialect rewrite -/

/-- C6 counterexample: a file whose FIRST `__version__` line differs from the
snapshot but whose last one equals it is NOT rewritten at all — the write
decision uses only the last seen value, so the claim "for every file
containing a `__version__` line whose value differs the sync rewrites that
line (and writes)" is false as stated. -/
theorem py_sync_first_line_counterexample :
    pyMatchTok ("__version__ = '1.0.0'".toList) = true ∧
    pyValOpt ("__version__ = '1.0.0'".toList) = some ("1.0.0".toList) ∧
    ("1.0.0".toList : Str) ≠ "1.0.1".toList ∧
    syncPythonFile ("1.0.1".toList)
      ("__version__ = '1.0.0'\n__version__ = '1.0.1'\n".toList) 420 = .noWrite := by
  exact ⟨by decide, by decide, by decide, by decide⟩

/-- C6 (amended): the Python sync's write decision is made by the parsed
value of the LAST `__version__` line.  For a file whose scanned lines include
at least one `__version__` line (none of them panicking): if the last one's
value differs from the snapshot version, the file is rewritten as the
per-line image under `pyLineOut`, which rewrites every differing
`__version__` line as `__version__ = '<version>'` (single quotes, regardless
of the original spacing or quoting) and copies all other lines through; if
the last value equals the snapshot version, no write occurs. -/
theorem py_sync_rewrite_amended (pv : Str) (ts : List Str) (mode : Nat)
    (hgood : ∀ t ∈ ts, goodTok t)
    (hok : ∀ t ∈ ts, pyMatchTok t = true → (pyValOpt t).isSome = true)
    (hsome : ts.any pyMatchTok = true) :
    (pyFinalVer [] ts ≠ pv →
      syncPythonFile pv (joinLF ts) mode = .write ((ts.map (pyLineOut pv)).flatten) mode) ∧
    (pyFinalVer [] ts = pv → syncPythonFile pv (joinLF ts) mode = .noWrite) ∧
    (∀ t : Str, pyMatchTok t = true → ∀ v : Str, pyValOpt t = some v → v ≠ pv →
      pyLineOut pv t = pyDunderLine pv) ∧
    (∀ t : Str, pyMatchTok t = false → pyLineOut pv t = lineOf t) := by
  have hs : scanLines (joinLF ts) = ts := scanLines_joinLF hgood
  have heq := syncPythonFile_eq pv (joinLF ts) mode (by rw [hs]; exact hok)
  rw [hs] at heq
  refine ⟨?_, ?_, ?_, ?_⟩
  · intro hne
    rw [heq, if_neg (by simp [hsome]), if_pos (fun h => hne h.symm)]
  · intro hequal
    rw [heq, if_neg (by simp [hsome]), if_neg (by simp [hequal])]
  · intro t hm v hv hne
    simp [pyLineOut, hm, hv, hne]
  · intro t hm
    simp [pyLineOut, hm]

/-- Witness for C6 (amended) at a two-line file whose `__version__` value
differs from the snapshot. -/
theorem py_sync_rewrite_amended_witness :
    syncPythonFile ("1.0.1".toList) (joinLF ["x = 1".toList, "__version__ = '1.0.0'".toList])
      420 =
      .write ((["x = 1".toList, "__version__ = '1.0.0'".toList].map
        (pyLineOut ("1.0.1".toList))).flatten) 420 :=
  (py_sync_rewrite_amended ("1.0.1".toList) ["x = 1".toList, "__version__ = '1.0.0'".toList]
    420 (by decide) (by decide) (by decide)).1 (by decide)

/-! ## Go dialect characterization -/

/-- A "plain" line for the Go scanner: it matches none of the scanner's
patterns, so the scanner copies it through and changes no state. -/
def goPlainTok (tok : Str) : Prop :=
  strContains (lineOf tok) pkgNameStr = false ∧
  strContains (lineOf tok) funcInitStr = false ∧
  strHasPre (lineOf tok) braceStr = false ∧
  strContains (lineOf tok) ctorStr = false ∧
  goVerRegexMatch (lineOf tok) = none

instance (tok : Str) : Decidable (goPlainTok tok) := by
  unfold goPlainTok
  infer_instance

/-- A plain line is copied verbatim (with its newline) in any scanner state. -/
theorem goSyncLine_plain (pv pb pc : Str) (st : GoScanState) (tok : Str) (h : goPlainTok tok) :
    goSyncLine pv pb pc st tok = { st with buffer := st.buffer ++ lineOf tok } := by
  obtain ⟨h1, h2, h3, h4, h5⟩ := h
  simp [goSyncLine, h1, h2, h3, h4, h5]

/-- A run of plain lines is copied verbatim in any scanner state. -/
theorem goScan_plain (pv pb pc : Str) : ∀ (ts : List Str) (st : GoScanState),
    (∀ t ∈ ts, goPlainTok t) →
    ts.foldl (goSyncLine pv pb pc) st = { st with buffer := st.buffer ++ joinLF ts } := by
  intro ts
  induction ts with
  | nil =>
    intro st _
    simp [joinLF]
  | cons t ts ih =>
    intro st h
    rw [List.foldl_cons, goSyncLine_plain pv pb pc st t (h t (List.mem_cons_self t ts)),
      ih _ (fun u hu => h u (List.mem_cons_of_mem _ hu))]
    simp [joinLF_cons, List.append_assoc]

/-- Before any init block is seen (`isInsideInit = 0`), lines that do not
open an init function are copied, and only the package-inclusion flag can
change (set by any line mentioning the import path). -/
theorem goScan_preInit (pv pb pc : Str) : ∀ (ts : List Str) (st : GoScanState),
    st.insideInit = 0 →
    (∀ t ∈ ts, strContains (lineOf t) funcInitStr = false) →
    ts.foldl (goSyncLine pv pb pc) st =
      { st with pkgInc := st.pkgInc || ts.any (fun t => strContains (lineOf t) pkgNameStr),
                buffer := st.buffer ++ joinLF ts } := by
  intro ts
  induction ts with
  | nil =>
    intro st _ _
    simp [joinLF]
  | cons t ts ih =>
    intro st h0 h
    rw [List.foldl_cons]
    have hstep : goSyncLine pv pb pc st t =
        { st with pkgInc := st.pkgInc || strContains (lineOf t) pkgNameStr,
                  buffer := st.buffer ++ lineOf t } := by
      by_cases hp : strContains (lineOf t) pkgNameStr = true
      · simp [goSyncLine, hp]
      · simp only [Bool.not_eq_true] at hp
        simp [goSyncLine, hp, h t (List.mem_cons_self t ts), h0]
    rw [hstep, ih _ (by simp [h0]) (fun u hu => h u (List.mem_cons_of_mem _ hu))]
    simp [joinLF_cons, List.any_cons, Bool.or_assoc, List.append_assoc]

/-- After the scanned init block has been closed (`isInsideInit ≥ 2`), all
remaining lines are copied verbatim; the initialization, version-found and
rewrite flags can no longer change, and the inclusion flag stays set. -/
theorem goScan_post (pv pb pc : Str) : ∀ (ts : List Str) (st : GoScanState),
    2 ≤ st.insideInit →
    (ts.foldl (goSyncLine pv pb pc) st).pkgInit = st.pkgInit ∧
    (ts.foldl (goSyncLine pv pb pc) st).foundVer = st.foundVer ∧
    (ts.foldl (goSyncLine pv pb pc) st).rewriteNeeded = st.rewriteNeeded ∧
    (ts.foldl (goSyncLine pv pb pc) st).buffer = st.buffer ++ joinLF ts ∧
    (st.pkgInc = true → (ts.foldl (goSyncLine pv pb pc) st).pkgInc = true) := by
  intro ts
  induction ts with
  | nil =>
    intro st _
    refine ⟨rfl, rfl, rfl, by simp [joinLF], fun h => h⟩
  | cons t ts ih =>
    intro st h2
    rw [List.foldl_cons]
    by_cases hp : strContains (lineOf t) pkgNameStr = true
    · have hstep : goSyncLine pv pb pc st t =
          { st with pkgInc := true, buffer := st.buffer ++ lineOf t } := by
        simp [goSyncLine, hp]
      rw [hstep]
      obtain ⟨i1, i2, i3, i4, i5⟩ :=
        ih { st with pkgInc := true, buffer := st.buffer ++ lineOf t } (by simpa using h2)
      exact ⟨i1, i2, i3, by rw [i4]; simp [joinLF_cons, List.append_assoc], fun _ => i5 rfl⟩
    · simp only [Bool.not_eq_true] at hp
      by_cases hf : strContains (lineOf t) funcInitStr = true
      · have hstep : goSyncLine pv pb pc st t =
            { st with buffer := st.buffer ++ lineOf t, insideInit := st.insideInit + 1 } := by
          simp [goSyncLine, hp, hf]
        rw [hstep]
        obtain ⟨i1, i2, i3, i4, i5⟩ :=
          ih { st with buffer := st.buffer ++ lineOf t, insideInit := st.insideInit + 1 }
            (by simp; omega)
        exact ⟨i1, i2, i3, by rw [i4]; simp [joinLF_cons, List.append_assoc], fun h => i5 h⟩
      · have hne : decide (st.insideInit = 1) = false := by
          simp only [decide_eq_false_iff_not]
          omega
        have hstep : goSyncLine pv pb pc st t =
            { st with buffer := st.buffer ++ lineOf t } := by
          simp [goSyncLine, hp, hf, hne]
        rw [hstep]
        obtain ⟨i1, i2, i3, i4, i5⟩ :=
          ih { st with buffer := st.buffer ++ lineOf t } (by simpa using h2)
        exact ⟨i1, i2, i3, by rw [i4]; simp [joinLF_cons, List.append_assoc], fun h => i5 h⟩

/-- If a line does not mention the import path, the step preserves the
package-inclusion flag. -/
theorem goSyncLine_pkgInc_of_not (pv pb pc : Str) (st : GoScanState) (tok : Str)
    (hp : strContains (lineOf tok) pkgNameStr = false) :
    (goSyncLine pv pb pc st tok).pkgInc = st.pkgInc := by
  simp only [goSyncLine, hp, Bool.false_eq_true, if_false]
  repeat' split
  all_goals rfl

/-- The package-inclusion flag is never cleared. -/
theorem goSyncLine_pkgInc_mono (pv pb pc : Str) (st : GoScanState) (tok : Str)
    (hp : st.pkgInc = true) :
    (goSyncLine pv pb pc st tok).pkgInc = true := by
  simp only [goSyncLine]
  repeat' split
  all_goals first | rfl | exact hp

/-- A line mentioning the import path sets the package-inclusion flag. -/
theorem goSyncLine_pkgInc_set (pv pb pc : Str) (st : GoScanState) (tok : Str)
    (hp : strContains (lineOf tok) pkgNameStr = true) :
    (goSyncLine pv pb pc st tok).pkgInc = true := by
  simp [goSyncLine, hp]

/-- If a line does not mention the constructor call, the step preserves the
package-initialization flag. -/
theorem goSyncLine_pkgInit_of_not (pv pb pc : Str) (st : GoScanState) (tok : Str)
    (hc : strContains (lineOf tok) ctorStr = false) :
    (goSyncLine pv pb pc st tok).pkgInit = st.pkgInit := by
  simp only [goSyncLine, hc, Bool.and_false, Bool.false_eq_true, if_false]
  repeat' split
  all_goals rfl

/-- Over a whole scan without import-path mentions, the inclusion flag is
preserved. -/
theorem goScan_pkgInc_of_not (pv pb pc : Str) : ∀ (ts : List Str) (st : GoScanState),
    (∀ t ∈ ts, strContains (lineOf t) pkgNameStr = false) →
    (ts.foldl (goSyncLine pv pb pc) st).pkgInc = st.pkgInc := by
  intro ts
  induction ts with
  | nil => intro st _; rfl
  | cons t ts ih =>
    intro st h
    rw [List.foldl_cons, ih _ (fun u hu => h u (List.mem_cons_of_mem _ hu)),
      goSyncLine_pkgInc_of_not pv pb pc st t (h t (List.mem_cons_self t ts))]

/-- Over a whole scan, the inclusion flag stays set once set. -/
theorem goScan_pkgInc_mono (pv pb pc : Str) : ∀ (ts : List Str) (st : GoScanState),
    st.pkgInc = true → (ts.foldl (goSyncLine pv pb pc) st).pkgInc = true := by
  intro ts
  induction ts with
  | nil => intro st h; exact h
  | cons t ts ih =>
    intro st h
    rw [List.foldl_cons]
    exact ih _ (goSyncLine_pkgInc_mono pv pb pc st t h)

/-- Any line mentioning the import path makes the final inclusion flag true. -/
theorem goScan_pkgInc_of_mem (pv pb pc : Str) : ∀ (ts : List Str) (st : GoScanState),
    (∃ t ∈ ts, strContains (lineOf t) pkgNameStr = true) →
    (ts.foldl (goSyncLine pv pb pc) st).pkgInc = true := by
  intro ts
  induction ts with
  | nil => rintro st ⟨t, ht, _⟩; simp at ht
  | cons t ts ih =>
    rintro st ⟨u, hu, hcont⟩
    rw [List.foldl_cons]
    rcases List.mem_cons.mp hu with rfl | hu'
    · exact goScan_pkgInc_mono pv pb pc ts _ (goSyncLine_pkgInc_set pv pb pc st u hcont)
    · exact ih _ ⟨u, hu', hcont⟩

/-- Over a whole scan without constructor calls, the initialization flag is
preserved. -/
theorem goScan_pkgInit_of_not (pv pb pc : Str) : ∀ (ts : List Str) (st : GoScanState),
    (∀ t ∈ ts, strContains (lineOf t) ctorStr = false) →
    (ts.foldl (goSyncLine pv pb pc) st).pkgInit = st.pkgInit := by
  intro ts
  induction ts with
  | nil => intro st _; rfl
  | cons t ts ih =>
    intro st h
    rw [List.foldl_cons, ih _ (fun u hu => h u (List.mem_cons_of_mem _ hu)),
      goSyncLine_pkgInit_of_not pv pb pc st t (h t (List.mem_cons_self t ts))]

/-! ## C5: structural-mismatch errors leave the file unmodified -/

/-- C5: each dialect returns its structural-mismatch error, and performs no
write, when the expected markers are absent.  Go: if no scanned line mentions
the import path, the package-not-found error; if some line mentions
the import path but none contains the constructor call, the not-initialized
error; if the scan ends with inclusion and initialization seen but no
`SetVersion` match, the version-not-found error.  Python: if no line starts
with `__version__`, the dunder-not-found error.  JS/TS: if no line contains
`"Version: "`, the version-not-found error.  (An `.err` result is by
construction not a `.write`: the file is untouched on every error path.) -/
theorem sync_structural_errors :
    (∀ pv pb pc content : Str, ∀ mode : Nat,
      (∀ t ∈ scanLines content, strContains (lineOf t) pkgNameStr = false) →
      syncGolangFile pv pb pc content mode = .err .pkgNotFound) ∧
    (∀ pv pb pc content : Str, ∀ mode : Nat,
      (∃ t ∈ scanLines content, strContains (lineOf t) pkgNameStr = true) →
      (∀ t ∈ scanLines content, strContains (lineOf t) ctorStr = false) →
      syncGolangFile pv pb pc content mode = .err .pkgNotInit) ∧
    (∀ pv pb pc content : Str, ∀ mode : Nat,
      (goScan pv pb pc (scanLines content)).pkgInc = true →
      (goScan pv pb pc (scanLines content)).pkgInit = true →
      (goScan pv pb pc (scanLines content)).foundVer = false →
      syncGolangFile pv pb pc content mode = .err .verNotFound) ∧
    (∀ pv content : Str, ∀ mode : Nat,
      (∀ t ∈ scanLines content, pyMatchTok t = false) →
      syncPythonFile pv content mode = .err .dunderNotFound) ∧
    (∀ pv content : Str, ∀ mode : Nat,
      (∀ t ∈ scanLines content, strContains t jsMarkerStr = false) →
      syncJavascriptFile pv content mode = .err .jsVerNotFound) := by
  refine ⟨?_, ?_, ?_, ?_, ?_⟩
  · intro pv pb pc content mode h
    have hinc : (goScan pv pb pc (scanLines content)).pkgInc = false :=
      goScan_pkgInc_of_not pv pb pc (scanLines content) _ h
    simp only [syncGolangFile]
    rw [hinc]
    simp
  · intro pv pb pc content mode hmem h
    have hinc : (goScan pv pb pc (scanLines content)).pkgInc = true :=
      goScan_pkgInc_of_mem pv pb pc (scanLines content) _ hmem
    have hinit : (goScan pv pb pc (scanLines content)).pkgInit = false :=
      goScan_pkgInit_of_not pv pb pc (scanLines content) _ h
    simp only [syncGolangFile]
    rw [hinc, hinit]
    simp
  · intro pv pb pc content mode h1 h2 h3
    simp only [syncGolangFile]
    rw [h1, h2, h3]
    simp
  · intro pv content mode h
    rw [syncPythonFile_eq pv content mode
      (fun t ht hmt => absurd hmt (by simp [h t ht])),
      if_pos (List.any_eq_false.mpr (fun t ht => by simp [h t ht]))]
  · intro pv content mode h
    rw [syncJavascriptFile_eq,
      if_pos (List.any_eq_false.mpr (fun t ht => by simp [h t ht]))]

/-- Witness for C5: a Go file with no import marker, a Python file with no
dunder, a JS file with no `Version:` field. -/
theorem sync_structural_errors_witness :
    syncGolangFile ("1.0.0".toList) [] [] ("package main\n".toList) 420 = .err .pkgNotFound ∧
    syncPythonFile ("1.0.0".toList) ("x = 1\n".toList) 420 = .err .dunderNotFound ∧
    syncJavascriptFile ("1.0.0".toList) ("x\n".toList) 420 = .err .jsVerNotFound := by
  refine ⟨sync_structural_errors.1 _ _ _ _ 420 ?_,
    sync_structural_errors.2.2.2.1 _ _ 420 ?_,
    sync_structural_errors.2.2.2.2 _ _ 420 ?_⟩ <;> decide

/-! ## C4: unmatched lines and line endings -/

/-- C4 counterexample: on a CRLF input file, the unmatched line `"A\r\n"` is
not reproduced byte-for-byte — the written file contains `"A\n"` instead, so
original line endings are not reconstructed. -/
theorem line_ending_counterexample :
    strContains ("A\r\nVersion: '1.0.0',\n".toList) ("A\r\n".toList) = true ∧
    syncJavascriptFile ("2.0.0".toList) ("A\r\nVersion: '1.0.0',\n".toList) 420 =
      .write ("A\nVersion: '2.0.0',\n".toList) 420 ∧
    strContains ("A\nVersion: '2.0.0',\n".toList) ("A\r\n".toList) = false := by
  exact ⟨by decide, by decide, by decide⟩

/-- C4 (amended): every line not matched by a dialect's rewrite rules is
copied through with its content intact, but with its line ending normalized
to a single LF (a CR is stripped by the scanner and a final LF is appended
even when the last line had none): the JS and Python written buffers are the
per-line images under `jsLineOut` / `pyLineOut`, which act as
identity-plus-LF on unmatched lines, and the Go scanner appends exactly
`line + "\n"` for every plain line in any state. -/
theorem unmatched_lines_copied_amended :
    (∀ (pv content : Str) (mode : Nat) (b : Str) (m : Nat),
      syncJavascriptFile pv content mode = .write b m →
      b = ((scanLines content).map (jsLineOut pv)).flatten) ∧
    (∀ pv tok : Str, strContains tok jsMarkerStr = false → jsLineOut pv tok = lineOf tok) ∧
    (∀ (pv content : Str) (mode : Nat) (b : Str) (m : Nat),
      (∀ t ∈ scanLines content, pyMatchTok t = true → (pyValOpt t).isSome = true) →
      syncPythonFile pv content mode = .write b m →
      b = ((scanLines content).map (pyLineOut pv)).flatten) ∧
    (∀ pv tok : Str, pyMatchTok tok = false → pyLineOut pv tok = lineOf tok) ∧
    (∀ (pv pb pc : Str) (st : GoScanState) (tok : Str), goPlainTok tok →
      goSyncLine pv pb pc st tok = { st with buffer := st.buffer ++ lineOf tok }) := by
  refine ⟨?_, ?_, ?_, ?_, ?_⟩
  · intro pv content mode b m h
    rw [syncJavascriptFile_eq] at h
    by_cases h1 : ((scanLines content).any fun t => strContains t jsMarkerStr) = false
    · rw [if_pos h1] at h
      cases h
    · rw [if_neg h1] at h
      by_cases h2 : pv ≠ jsFinalVer [] (scanLines content)
      · rw [if_pos h2] at h
        injection h with hb hm
        exact hb.symm
      · rw [if_neg h2] at h
        cases h
  · intro pv tok hm
    simp [jsLineOut, hm, lineOf]
  · intro pv content mode b m hok h
    rw [syncPythonFile_eq pv content mode hok] at h
    by_cases h1 : (scanLines content).any pyMatchTok = false
    · rw [if_pos h1] at h
      cases h
    · rw [if_neg h1] at h
      by_cases h2 : pv ≠ pyFinalVer [] (scanLines content)
      · rw [if_pos h2] at h
        injection h with hb hm
        exact hb.symm
      · rw [if_neg h2] at h
        cases h
  · intro pv tok hm
    simp [pyLineOut, hm, lineOf]
  · exact goSyncLine_plain

/-- Witness for C4 (amended): an unmatched JS line passes through with LF,
and a concrete CRLF-file write equals the per-line image. -/
theorem unmatched_lines_copied_amended_witness :
    jsLineOut ("1.0.0".toList) ("hello".toList) = lineOf ("hello".toList) ∧
    ("A\nVersion: '2.0.0',\n".toList : Str) =
      ((scanLines ("A\r\nVersion: '1.0.0',\n".toList)).map (jsLineOut ("2.0.0".toList))).flatten := by
  constructor
  · exact unmatched_lines_copied_amended.2.1 _ _ (by decide)
  · exact unmatched_lines_copied_amended.1 _ _ 420 _ 420 (by decide)

/-! ## C3: write-or-no-write and permission bits -/

/-- A line that triggers no replacement for the given snapshot: whenever the
`Set` regular expression matches it, the captured literal already equals the
corresponding snapshot field. -/
def goNoRepl (pv pb pc tok : Str) : Prop :=
  ∀ g1 g2 g3 : Str, goVerRegexMatch (lineOf tok) = some (g1, g2, g3) →
    (g2 = verFieldStr → g3 = pv) ∧ (g2 = branchFieldStr → g3 = pb) ∧
    (g2 = commitFieldStr → g3 = pc)

/-- A no-replacement line leaves the rewrite flag unchanged. -/
theorem goSyncLine_rewrite_of_noRepl (pv pb pc : Str) (st : GoScanState) (tok : Str)
    (h : goNoRepl pv pb pc tok) :
    (goSyncLine pv pb pc st tok).rewriteNeeded = st.rewriteNeeded := by
  simp only [goSyncLine]
  split
  · rfl
  · split
    · rfl
    · split
      · rfl
      · split
        · rfl
        · split
          · cases hre : goVerRegexMatch (lineOf tok) with
            | none => rfl
            | some trip =>
              obtain ⟨g1, g2, g3⟩ := trip
              obtain ⟨hV, hB, hC⟩ := h g1 g2 g3 hre
              by_cases h2 : g2 = verFieldStr
              · simp [h2, hV h2]
              · by_cases h3 : g2 = branchFieldStr
                · simp [h2, h3, hB h3, show branchFieldStr ≠ verFieldStr from by decide]
                · by_cases h4 : g2 = commitFieldStr
                  · simp [h2, h3, h4, hC h4, show commitFieldStr ≠ verFieldStr from by decide,
                      show commitFieldStr ≠ branchFieldStr from by decide]
                  · simp [h2, h3, h4]
          · rfl

/-- Over a whole scan of no-replacement lines, the rewrite flag is
unchanged. -/
theorem goScan_rewrite_of_noRepl (pv pb pc : Str) : ∀ (ts : List Str) (st : GoScanState),
    (∀ t ∈ ts, goNoRepl pv pb pc t) →
    (ts.foldl (goSyncLine pv pb pc) st).rewriteNeeded = st.rewriteNeeded := by
  intro ts
  induction ts with
  | nil => intro st _; rfl
  | cons t ts ih =>
    intro st h
    rw [List.foldl_cons, ih _ (fun u hu => h u (List.mem_cons_of_mem _ hu)),
      goSyncLine_rewrite_of_noRepl pv pb pc st t (h t (List.mem_cons_self t ts))]

/-- If every matched Python line already carries the snapshot value, the
final `fileVersion` is the snapshot value. -/
theorem pyFinalVer_of_all (pv : Str) (ts : List Str)
    (h : ∀ t ∈ ts, pyMatchTok t = true → pyValOpt t = some pv)
    (hsome : ts.any pyMatchTok = true) : pyFinalVer [] ts = pv := by
  unfold pyFinalVer
  cases hl : (ts.filter pyMatchTok).getLast? with
  | none =>
    have hne : ts.filter pyMatchTok ≠ [] := by
      obtain ⟨t, ht, hmt⟩ := List.any_eq_true.mp hsome
      intro hf
      have : t ∈ ts.filter pyMatchTok := List.mem_filter.mpr ⟨ht, hmt⟩
      rw [hf] at this
      simp at this
    rw [← List.getLast?_isSome, hl] at hne
    simp at hne
  | some t =>
    obtain ⟨hk, heq⟩ := @List.mem_getLast?_eq_getLast Str (ts.filter pyMatchTok) t hl
    have hmem : t ∈ ts.filter pyMatchTok := heq ▸ List.getLast_mem hk
    obtain ⟨hts, hmt⟩ := List.mem_filter.mp hmem
    show (pyValOpt t).getD [] = pv
    rw [h t hts hmt]
    rfl

/-- If every matched JS line already carries the snapshot value, the final
`fileVersion` is the snapshot value. -/
theorem jsFinalVer_of_all (pv : Str) (ts : List Str)
    (h : ∀ t ∈ ts, strContains t jsMarkerStr = true → jsVal t = pv)
    (hsome : ts.any (fun t => strContains t jsMarkerStr) = true) :
    jsFinalVer [] ts = pv := by
  unfold jsFinalVer
  cases hl : (ts.filter (fun t => strContains t jsMarkerStr)).getLast? with
  | none =>
    have hne : ts.filter (fun t => strContains t jsMarkerStr) ≠ [] := by
      obtain ⟨t, ht, hmt⟩ := List.any_eq_true.mp hsome
      intro hf
      have : t ∈ ts.filter (fun t => strContains t jsMarkerStr) :=
        List.mem_filter.mpr ⟨ht, hmt⟩
      rw [hf] at this
      simp at this
    rw [← List.getLast?_isSome, hl] at hne
    simp at hne
  | some t =>
    obtain ⟨hk, heq⟩ :=
      @List.mem_getLast?_eq_getLast Str (ts.filter (fun t => strContains t jsMarkerStr)) t hl
    have hmem : t ∈ ts.filter (fun t => strContains t jsMarkerStr) :=
      heq ▸ List.getLast_mem hk
    obtain ⟨hts, hmt⟩ := List.mem_filter.mp hmem
    show jsVal t = pv
    exact h t hts hmt

/-- C3 counterexample: the Go dialect does not preserve the original
permission bits — a Go target file with mode `0600` is rewritten with the
fixed mode `0644` (`ioutil.WriteFile(fp, buffer.Bytes(), 0644)` in
`syncGolangFile`). -/
theorem go_write_mode_counterexample :
    syncGolangFile ("2.0.0".toList) [] []
      ("import (\n\t\"github.com/greenpau/versioned\"\n)\nfunc init() \x7b\n\tapp = versioned.NewPackageManager(\"myapp\")\n\tapp.SetVersion(appVersion, \"1.0.1\")\n\x7d\n".toList)
      0o600 =
      .write
        ("import (\n\t\"github.com/greenpau/versioned\"\n)\nfunc init() \x7b\n\tapp = versioned.NewPackageManager(\"myapp\")\n\tapp.SetVersion(appVersion, \"2.0.0\")\n\x7d\n".toList)
        0o644 ∧
    (0o644 : Nat) ≠ 0o600 := by
  exact ⟨by decide, by decide⟩

/-- C3 (amended): for every dialect, if the pass detects no difference the
file is not written; when a write happens, the Python and JS dialects use the
file's original permission bits, while the Go dialect writes with the fixed
mode `0644`. -/
theorem no_change_no_write_and_mode_amended :
    (∀ (pv content : Str) (mode : Nat) (b : Str) (m : Nat),
      syncPythonFile pv content mode = .write b m → m = mode) ∧
    (∀ (pv content : Str) (mode : Nat) (b : Str) (m : Nat),
      syncJavascriptFile pv content mode = .write b m → m = mode) ∧
    (∀ (pv pb pc content : Str) (mode : Nat) (b : Str) (m : Nat),
      syncGolangFile pv pb pc content mode = .write b m → m = 0o644) ∧
    (∀ (pv content : Str) (mode : Nat),
      (∀ t ∈ scanLines content, pyMatchTok t = true → pyValOpt t = some pv) →
      ∀ (b : Str) (m : Nat), syncPythonFile pv content mode ≠ .write b m) ∧
    (∀ (pv content : Str) (mode : Nat),
      (∀ t ∈ scanLines content, strContains t jsMarkerStr = true → jsVal t = pv) →
      ∀ (b : Str) (m : Nat), syncJavascriptFile pv content mode ≠ .write b m) ∧
    (∀ (pv pb pc content : Str) (mode : Nat),
      (∀ t ∈ scanLines content, goNoRepl pv pb pc t) →
      ∀ (b : Str) (m : Nat), syncGolangFile pv pb pc content mode ≠ .write b m) := by
  refine ⟨?_, ?_, ?_, ?_, ?_, ?_⟩
  · intro pv content mode b m h
    simp only [syncPythonFile] at h
    split_ifs at h
    injection h with hb hm
    exact hm.symm
  · intro pv content mode b m h
    simp only [syncJavascriptFile] at h
    split_ifs at h
    injection h with hb hm
    exact hm.symm
  · intro pv pb pc content mode b m h
    simp only [syncGolangFile] at h
    split_ifs at h
    injection h with hb hm
    exact hm.symm
  · intro pv content mode h b m hw
    have hok : ∀ t ∈ scanLines content, pyMatchTok t = true → (pyValOpt t).isSome = true :=
      fun t ht hmt => by rw [h t ht hmt]; rfl
    rw [syncPythonFile_eq pv content mode hok] at hw
    by_cases h1 : (scanLines content).any pyMatchTok = false
    · rw [if_pos h1] at hw
      cases hw
    · rw [if_neg h1] at hw
      have hfv : pyFinalVer [] (scanLines content) = pv :=
        pyFinalVer_of_all pv _ h (by revert h1; cases (scanLines content).any pyMatchTok <;> simp)
      rw [if_neg (by simp [hfv])] at hw
      cases hw
  · intro pv content mode h b m hw
    rw [syncJavascriptFile_eq] at hw
    by_cases h1 : ((scanLines content).any fun t => strContains t jsMarkerStr) = false
    · rw [if_pos h1] at hw
      cases hw
    · rw [if_neg h1] at hw
      have hfv : jsFinalVer [] (scanLines content) = pv :=
        jsFinalVer_of_all pv _ h
          (by revert h1; cases (scanLines content).any fun t => strContains t jsMarkerStr <;> simp)
      rw [if_neg (by simp [hfv])] at hw
      cases hw
  · intro pv pb pc content mode h b m hw
    have hrw : (goScan pv pb pc (scanLines content)).rewriteNeeded = false :=
      goScan_rewrite_of_noRepl pv pb pc (scanLines content) _ h
    simp only [syncGolangFile] at hw
    rw [hrw] at hw
    split_ifs at hw <;> simp_all

/-- Witness for C3 (amended): the modes used by concrete writes, and a
concrete no-difference run that does not write. -/
theorem no_change_no_write_and_mode_amended_witness :
    (420 : Nat) = 420 ∧ (0o644 : Nat) = 0o644 ∧
    syncPythonFile ("1.0.0".toList) ("__version__ = '1.0.0'\n".toList) 416 ≠
      .write ("__version__ = '1.0.0'\n".toList) 416 := by
  refine ⟨?_, ?_, ?_⟩
  · exact no_change_no_write_and_mode_amended.1 ("1.0.1".toList)
      ("__version__ = '1.0.0'\n".toList) 420 ("__version__ = '1.0.1'\n".toList) 420 (by decide)
  · exact no_change_no_write_and_mode_amended.2.2.1 ("2.0.0".toList) [] []
      ("import (\n\t\"github.com/greenpau/versioned\"\n)\nfunc init() \x7b\n\tapp = versioned.NewPackageManager(\"myapp\")\n\tapp.SetVersion(appVersion, \"1.0.1\")\n\x7d\n".toList)
      0o600
      ("import (\n\t\"github.com/greenpau/versioned\"\n)\nfunc init() \x7b\n\tapp = versioned.NewPackageManager(\"myapp\")\n\tapp.SetVersion(appVersion, \"2.0.0\")\n\x7d\n".toList)
      0o644 (by decide)
  · exact no_change_no_write_and_mode_amended.2.2.2.1 ("1.0.0".toList)
      ("__version__ = '1.0.0'\n".toList) 416 (by decide)
      ("__version__ = '1.0.0'\n".toList) 416

/-! ## C2: Go-dialect rewrite and idempotence -/

/-- Canonical import line of a Go sync target. -/
def impTok : Str := "\t\"github.com/greenpau/versioned\"".toList

/-- Canonical init-function opening line. -/
def initTok : Str := "func init() \x7b".toList

/-- Canonical constructor-call line. -/
def ctorTok : Str := "\tapp = versioned.NewPackageManager(\"app\")".toList

/-- Canonical `SetVersion` line carrying the old version `1.0.1`. -/
def svTokOld : Str := "\tapp.SetVersion(appVersion, \"1.0.1\")".toList

/-- The same `SetVersion` line carrying the new version `2.0.0`. -/
def svTokNew : Str := "\tapp.SetVersion(appVersion, \"2.0.0\")".toList

/-- Canonical init-closing line. -/
def braceTok : Str := "\x7d".toList

theorem goStep_impTok (pv pb pc : Str) (st : GoScanState) :
    goSyncLine pv pb pc st impTok =
      { st with pkgInc := true, buffer := st.buffer ++ lineOf impTok } := by
  simp [goSyncLine, show strContains (lineOf impTok) pkgNameStr = true from by decide]

theorem goStep_initTok (pv pb pc : Str) (st : GoScanState) :
    goSyncLine pv pb pc st initTok =
      { st with buffer := st.buffer ++ lineOf initTok, insideInit := st.insideInit + 1 } := by
  simp [goSyncLine, show strContains (lineOf initTok) pkgNameStr = false from by decide,
    show strContains (lineOf initTok) funcInitStr = true from by decide]

theorem goStep_ctorTok (pv pb pc : Str) (st : GoScanState) (h : st.insideInit = 1) :
    goSyncLine pv pb pc st ctorTok =
      { st with pkgInit := true, buffer := st.buffer ++ lineOf ctorTok } := by
  simp [goSyncLine, h, show strContains (lineOf ctorTok) pkgNameStr = false from by decide,
    show strContains (lineOf ctorTok) funcInitStr = false from by decide,
    show strHasPre (lineOf ctorTok) braceStr = false from by decide,
    show strContains (lineOf ctorTok) ctorStr = true from by decide]

theorem goStep_braceTok (pv pb pc : Str) (st : GoScanState) (h : st.insideInit = 1) :
    goSyncLine pv pb pc st braceTok =
      { st with buffer := st.buffer ++ lineOf braceTok, insideInit := st.insideInit + 1 } := by
  simp [goSyncLine, h, show strContains (lineOf braceTok) pkgNameStr = false from by decide,
    show strContains (lineOf braceTok) funcInitStr = false from by decide,
    show strHasPre (lineOf braceTok) braceStr = true from by decide]

theorem goStep_svTokOld (pb pc : Str) (st : GoScanState)
    (h1 : st.insideInit = 1) (h2 : st.pkgInit = true) :
    goSyncLine ("2.0.0".toList) pb pc st svTokOld =
      { st with foundVer := true, rewriteNeeded := true,
                buffer := st.buffer ++ lineOf svTokNew } := by
  simp [goSyncLine, h1, h2, show strContains (lineOf svTokOld) pkgNameStr = false from by decide,
    show strContains (lineOf svTokOld) funcInitStr = false from by decide,
    show strHasPre (lineOf svTokOld) braceStr = false from by decide,
    show strContains (lineOf svTokOld) ctorStr = false from by decide,
    show goVerRegexMatch (lineOf svTokOld) =
      some ("app".toList, verFieldStr, "1.0.1".toList) from by decide,
    show ("1.0.1".toList : Str) ≠ "2.0.0".toList from by decide,
    show strReplaceAll (lineOf svTokOld) (quoted ['1', '.', '0', '.', '1'])
      (quoted ['2', '.', '0', '.', '0']) = lineOf svTokNew from by decide]

theorem goStep_svTokNew (pb pc : Str) (st : GoScanState)
    (h1 : st.insideInit = 1) (h2 : st.pkgInit = true) :
    goSyncLine ("2.0.0".toList) pb pc st svTokNew =
      { st with foundVer := true, buffer := st.buffer ++ lineOf svTokNew } := by
  simp [goSyncLine, h1, h2, show strContains (lineOf svTokNew) pkgNameStr = false from by decide,
    show strContains (lineOf svTokNew) funcInitStr = false from by decide,
    show strHasPre (lineOf svTokNew) braceStr = false from by decide,
    show strContains (lineOf svTokNew) ctorStr = false from by decide,
    show goVerRegexMatch (lineOf svTokNew) =
      some ("app".toList, verFieldStr, "2.0.0".toList) from by decide]

/-- Full scan of the canonical Go target family: arbitrary prologue lines
(that never open an init function), plain lines inside the init block, and an
arbitrary epilogue, around the canonical marker lines and a version line `sv`
whose step behavior is given by `hsv`. -/
theorem goScan_family (pb pc : Str) (P Q R S T F : List Str) (sv out : Str) (rwFlag : Bool)
    (hP : ∀ t ∈ P, strContains (lineOf t) funcInitStr = false)
    (hQ : ∀ t ∈ Q, strContains (lineOf t) funcInitStr = false)
    (hR : ∀ t ∈ R, goPlainTok t) (hS : ∀ t ∈ S, goPlainTok t) (hT : ∀ t ∈ T, goPlainTok t)
    (hsv : ∀ st : GoScanState, st.insideInit = 1 → st.pkgInit = true → st.rewriteNeeded = false →
      goSyncLine ("2.0.0".toList) pb pc st sv =
        { st with foundVer := true, rewriteNeeded := rwFlag,
                  buffer := st.buffer ++ lineOf out }) :
    (goScan ("2.0.0".toList) pb pc
      (P ++ [impTok] ++ Q ++ [initTok] ++ R ++ [ctorTok] ++ S ++ [sv] ++ T ++ [braceTok] ++ F)).pkgInc = true ∧
    (goScan ("2.0.0".toList) pb pc
      (P ++ [impTok] ++ Q ++ [initTok] ++ R ++ [ctorTok] ++ S ++ [sv] ++ T ++ [braceTok] ++ F)).pkgInit = true ∧
    (goScan ("2.0.0".toList) pb pc
      (P ++ [impTok] ++ Q ++ [initTok] ++ R ++ [ctorTok] ++ S ++ [sv] ++ T ++ [braceTok] ++ F)).foundVer = true ∧
    (goScan ("2.0.0".toList) pb pc
      (P ++ [impTok] ++ Q ++ [initTok] ++ R ++ [ctorTok] ++ S ++ [sv] ++ T ++ [braceTok] ++ F)).rewriteNeeded = rwFlag ∧
    (goScan ("2.0.0".toList) pb pc
      (P ++ [impTok] ++ Q ++ [initTok] ++ R ++ [ctorTok] ++ S ++ [sv] ++ T ++ [braceTok] ++ F)).buffer =
      joinLF (P ++ [impTok] ++ Q ++ [initTok] ++ R ++ [ctorTok] ++ S ++ [out] ++ T ++ [braceTok] ++ F) := by
  have c0 : P.foldl (goSyncLine ("2.0.0".toList) pb pc) ⟨false, false, false, false, 0, []⟩ =
      ⟨P.any (fun t => strContains (lineOf t) pkgNameStr), false, false, false, 0, joinLF P⟩ := by
    rw [goScan_preInit ("2.0.0".toList) pb pc P _ rfl hP]
    simp
  have d1 : goSyncLine ("2.0.0".toList) pb pc
      ⟨P.any (fun t => strContains (lineOf t) pkgNameStr), false, false, false, 0, joinLF P⟩
      impTok = ⟨true, false, false, false, 0, joinLF P ++ lineOf impTok⟩ := by
    rw [goStep_impTok]
  have d2 : Q.foldl (goSyncLine ("2.0.0".toList) pb pc)
      ⟨true, false, false, false, 0, joinLF P ++ lineOf impTok⟩ =
      ⟨true, false, false, false, 0, (joinLF P ++ lineOf impTok) ++ joinLF Q⟩ := by
    rw [goScan_preInit ("2.0.0".toList) pb pc Q _ rfl hQ]
    simp
  have d3 : goSyncLine ("2.0.0".toList) pb pc
      ⟨true, false, false, false, 0, (joinLF P ++ lineOf impTok) ++ joinLF Q⟩ initTok =
      ⟨true, false, false, false, 1,
        ((joinLF P ++ lineOf impTok) ++ joinLF Q) ++ lineOf initTok⟩ := by
    rw [goStep_initTok]
  have d4 : R.foldl (goSyncLine ("2.0.0".toList) pb pc)
      ⟨true, false, false, false, 1, ((joinLF P ++ lineOf impTok) ++ joinLF Q) ++ lineOf initTok⟩ =
      ⟨true, false, false, false, 1,
        (((joinLF P ++ lineOf impTok) ++ joinLF Q) ++ lineOf initTok) ++ joinLF R⟩ := by
    rw [goScan_plain ("2.0.0".toList) pb pc R _ hR]
  have d5 : goSyncLine ("2.0.0".toList) pb pc
      ⟨true, false, false, false, 1,
        (((joinLF P ++ lineOf impTok) ++ joinLF Q) ++ lineOf initTok) ++ joinLF R⟩ ctorTok =
      ⟨true, true, false, false, 1,
        ((((joinLF P ++ lineOf impTok) ++ joinLF Q) ++ lineOf initTok) ++ joinLF R) ++
          lineOf ctorTok⟩ := by
    rw [goStep_ctorTok ("2.0.0".toList) pb pc _ rfl]
  have d6 : S.foldl (goSyncLine ("2.0.0".toList) pb pc)
      ⟨true, true, false, false, 1,
        ((((joinLF P ++ lineOf impTok) ++ joinLF Q) ++ lineOf initTok) ++ joinLF R) ++
          lineOf ctorTok⟩ =
      ⟨true, true, false, false, 1,
        (((((joinLF P ++ lineOf impTok) ++ joinLF Q) ++ lineOf initTok) ++ joinLF R) ++
          lineOf ctorTok) ++ joinLF S⟩ := by
    rw [goScan_plain ("2.0.0".toList) pb pc S _ hS]
  have d7 : goSyncLine ("2.0.0".toList) pb pc
      ⟨true, true, false, false, 1,
        (((((joinLF P ++ lineOf impTok) ++ joinLF Q) ++ lineOf initTok) ++ joinLF R) ++
          lineOf ctorTok) ++ joinLF S⟩ sv =
      ⟨true, true, true, rwFlag, 1,
        ((((((joinLF P ++ lineOf impTok) ++ joinLF Q) ++ lineOf initTok) ++ joinLF R) ++
          lineOf ctorTok) ++ joinLF S) ++ lineOf out⟩ := by
    rw [hsv _ rfl rfl rfl]
  have d8 : T.foldl (goSyncLine ("2.0.0".toList) pb pc)
      ⟨true, true, true, rwFlag, 1,
        ((((((joinLF P ++ lineOf impTok) ++ joinLF Q) ++ lineOf initTok) ++ joinLF R) ++
          lineOf ctorTok) ++ joinLF S) ++ lineOf out⟩ =
      ⟨true, true, true, rwFlag, 1,
        (((((((joinLF P ++ lineOf impTok) ++ joinLF Q) ++ lineOf initTok) ++ joinLF R) ++
          lineOf ctorTok) ++ joinLF S) ++ lineOf out) ++ joinLF T⟩ := by
    rw [goScan_plain ("2.0.0".toList) pb pc T _ hT]
  have d9 : goSyncLine ("2.0.0".toList) pb pc
      ⟨true, true, true, rwFlag, 1,
        (((((((joinLF P ++ lineOf impTok) ++ joinLF Q) ++ lineOf initTok) ++ joinLF R) ++
          lineOf ctorTok) ++ joinLF S) ++ lineOf out) ++ joinLF T⟩ braceTok =
      ⟨true, true, true, rwFlag, 2,
        ((((((((joinLF P ++ lineOf impTok) ++ joinLF Q) ++ lineOf initTok) ++ joinLF R) ++
          lineOf ctorTok) ++ joinLF S) ++ lineOf out) ++ joinLF T) ++ lineOf braceTok⟩ := by
    rw [goStep_braceTok ("2.0.0".toList) pb pc _ rfl]
  have hmain : goScan ("2.0.0".toList) pb pc
      (P ++ [impTok] ++ Q ++ [initTok] ++ R ++ [ctorTok] ++ S ++ [sv] ++ T ++ [braceTok] ++ F) =
      F.foldl (goSyncLine ("2.0.0".toList) pb pc)
        ⟨true, true, true, rwFlag, 2,
          ((((((((joinLF P ++ lineOf impTok) ++ joinLF Q) ++ lineOf initTok) ++ joinLF R) ++
            lineOf ctorTok) ++ joinLF S) ++ lineOf out) ++ joinLF T) ++ lineOf braceTok⟩ := by
    simp only [goScan, List.foldl_append, List.foldl_cons, List.foldl_nil]
    rw [c0, d1, d2, d3, d4, d5, d6, d7, d8, d9]
  obtain ⟨p1, p2, p3, p4, p5⟩ := goScan_post ("2.0.0".toList) pb pc F
    ⟨true, true, true, rwFlag, 2,
      ((((((((joinLF P ++ lineOf impTok) ++ joinLF Q) ++ lineOf initTok) ++ joinLF R) ++
        lineOf ctorTok) ++ joinLF S) ++ lineOf out) ++ joinLF T) ++ lineOf braceTok⟩
    (by norm_num)
  rw [hmain]
  refine ⟨p5 rfl, p1, p2, p3, ?_⟩
  rw [p4]
  simp [joinLF_append, joinLF_cons, joinLF, List.append_assoc]

set_option maxRecDepth 100000 in
/-- C2 counterexample: on a CRLF Go target file satisfying all the claim's
structural conditions, the rewritten file is NOT "the original with only the
SetVersion literal changed" — every CRLF ending is normalized to LF, so the
output differs from the byte-identical-elsewhere expectation. -/
theorem go_sync_crlf_counterexample :
    syncGolangFile ("2.0.0".toList) [] []
      ("import (\r\n\t\"github.com/greenpau/versioned\"\r\n)\r\nfunc init() \x7b\r\n\tapp = versioned.NewPackageManager(\"app\")\r\n\tapp.SetVersion(appVersion, \"1.0.1\")\r\n\x7d\r\n".toList)
      420 =
      .write
        ("import (\n\t\"github.com/greenpau/versioned\"\n)\nfunc init() \x7b\n\tapp = versioned.NewPackageManager(\"app\")\n\tapp.SetVersion(appVersion, \"2.0.0\")\n\x7d\n".toList)
        0o644 ∧
    ("import (\n\t\"github.com/greenpau/versioned\"\n)\nfunc init() \x7b\n\tapp = versioned.NewPackageManager(\"app\")\n\tapp.SetVersion(appVersion, \"2.0.0\")\n\x7d\n".toList : Str) ≠
      strReplaceAll
        ("import (\r\n\t\"github.com/greenpau/versioned\"\r\n)\r\nfunc init() \x7b\r\n\tapp = versioned.NewPackageManager(\"app\")\r\n\tapp.SetVersion(appVersion, \"1.0.1\")\r\n\x7d\r\n".toList)
        (quoted ("1.0.1".toList)) (quoted ("2.0.0".toList)) := by
  exact ⟨by decide, by decide⟩

/-- C2 (amended): for every LF-terminated Go target file built from the
canonical markers — an import line for the owning package, a `func init() {`
opening, a `versioned.NewPackageManager` constructor call inside it, and the
`SetVersion` line `\tapp.SetVersion(appVersion, "1.0.1")` — surrounded by
arbitrary lines that never open an init function (before the block), by
pattern-free lines (inside the block), and by arbitrary lines (after it),
syncing against the snapshot version `2.0.0` writes the file back (with mode
0644) identical to the original except that the `SetVersion` literal becomes
`"2.0.0"`; and running the sync a second time on the result detects no
difference and performs no write (idempotence). -/
theorem go_sync_rewrite_amended (pb pc : Str) (P Q R S T F : List Str) (mode : Nat)
    (hPg : ∀ t ∈ P, goodTok t) (hP : ∀ t ∈ P, strContains (lineOf t) funcInitStr = false)
    (hQg : ∀ t ∈ Q, goodTok t) (hQ : ∀ t ∈ Q, strContains (lineOf t) funcInitStr = false)
    (hRg : ∀ t ∈ R, goodTok t) (hR : ∀ t ∈ R, goPlainTok t)
    (hSg : ∀ t ∈ S, goodTok t) (hS : ∀ t ∈ S, goPlainTok t)
    (hTg : ∀ t ∈ T, goodTok t) (hT : ∀ t ∈ T, goPlainTok t)
    (hFg : ∀ t ∈ F, goodTok t) :
    syncGolangFile ("2.0.0".toList) pb pc
      (joinLF (P ++ [impTok] ++ Q ++ [initTok] ++ R ++ [ctorTok] ++ S ++ [svTokOld] ++ T ++
        [braceTok] ++ F)) mode =
      .write (joinLF (P ++ [impTok] ++ Q ++ [initTok] ++ R ++ [ctorTok] ++ S ++ [svTokNew] ++
        T ++ [braceTok] ++ F)) 0o644 ∧
    syncGolangFile ("2.0.0".toList) pb pc
      (joinLF (P ++ [impTok] ++ Q ++ [initTok] ++ R ++ [ctorTok] ++ S ++ [svTokNew] ++ T ++
        [braceTok] ++ F)) mode = .noWrite := by
  have hgood1 : ∀ t ∈ P ++ [impTok] ++ Q ++ [initTok] ++ R ++ [ctorTok] ++ S ++ [svTokOld] ++
      T ++ [braceTok] ++ F, goodTok t := by
    simp only [List.forall_mem_append, List.forall_mem_singleton]
    exact ⟨⟨⟨⟨⟨⟨⟨⟨⟨⟨hPg, by decide⟩, hQg⟩, by decide⟩, hRg⟩, by decide⟩, hSg⟩, by decide⟩,
      hTg⟩, by decide⟩, hFg⟩
  have hgood2 : ∀ t ∈ P ++ [impTok] ++ Q ++ [initTok] ++ R ++ [ctorTok] ++ S ++ [svTokNew] ++
      T ++ [braceTok] ++ F, goodTok t := by
    simp only [List.forall_mem_append, List.forall_mem_singleton]
    exact ⟨⟨⟨⟨⟨⟨⟨⟨⟨⟨hPg, by decide⟩, hQg⟩, by decide⟩, hRg⟩, by decide⟩, hSg⟩, by decide⟩,
      hTg⟩, by decide⟩, hFg⟩
  obtain ⟨a1, a2, a3, a4, a5⟩ := goScan_family pb pc P Q R S T F svTokOld svTokNew true
    hP hQ hR hS hT (fun st h1 h2 _ => goStep_svTokOld pb pc st h1 h2)
  obtain ⟨b1, b2, b3, b4, b5⟩ := goScan_family pb pc P Q R S T F svTokNew svTokNew false
    hP hQ hR hS hT
    (fun st h1 h2 h3 => by rw [goStep_svTokNew pb pc st h1 h2, ← h3])
  constructor
  · simp only [syncGolangFile]
    rw [scanLines_joinLF hgood1, a1, a2, a3, a4, a5]
    simp
  · simp only [syncGolangFile]
    rw [scanLines_joinLF hgood2, b1, b2, b3, b4, b5]
    simp

/-- Witness for C2 (amended): the minimal canonical file (all surrounding
segments empty). -/
theorem go_sync_rewrite_amended_witness :
    syncGolangFile ("2.0.0".toList) [] []
      (joinLF ([] ++ [impTok] ++ [] ++ [initTok] ++ [] ++ [ctorTok] ++ [] ++ [svTokOld] ++
        [] ++ [braceTok] ++ [])) 420 =
      .write (joinLF ([] ++ [impTok] ++ [] ++ [initTok] ++ [] ++ [ctorTok] ++ [] ++
        [svTokNew] ++ [] ++ [braceTok] ++ [])) 0o644 ∧
    syncGolangFile ("2.0.0".toList) [] []
      (joinLF ([] ++ [impTok] ++ [] ++ [initTok] ++ [] ++ [ctorTok] ++ [] ++ [svTokNew] ++
        [] ++ [braceTok] ++ [])) 420 = .noWrite :=
  go_sync_rewrite_amended [] [] [] [] [] [] [] [] 420
    (by simp) (by simp) (by simp) (by simp) (by simp) (by simp)
    (by simp) (by simp) (by simp) (by simp) (by simp)
